import Mathlib

/-!
Verification of the terminal chatbot (src/chatbot_sample.py): a shallow
embedding of its restricted arithmetic evaluator (`eval_expr`), its response
rules (`Chatbot.respond`), and its memory store (`save` / `load` / `reset`),
together with proofs about the embedded definitions.

Modelling conventions:
- Python numbers are modelled in exact arithmetic: `int` as `Int`, `float` as
  `Rat`.  Transcendental functions and the constants `pi`, `e`, `tau` have
  irrational values, so the evaluator is parameterized over their semantics
  (a `MathSem`); the concrete instance `SModel` interprets them exactly where
  an exact rational value exists and signals a model-level error elsewhere.
- Character-level operations (`lower`, `strip`, `\b` of the regex) are
  modelled on ASCII, which covers every string the program's fixed rules and
  patterns inspect.
- File I/O is modelled as a map from paths to file contents; `json.dump` /
  `json.load` are modelled by an executable JSON printer and parser.
-/

/-! ## Python string helpers -/

/-- Python whitespace for `str.strip` (ASCII part). -/
def pySpaceChar (c : Char) : Bool :=
  c = ' ' || c = '\t' || c = '\n' || c = '\x0b' || c = '\x0c' || c = '\r'

/-- ASCII lower-casing of one character, as `str.lower` does on ASCII. -/
def pyLowerChar (c : Char) : Char :=
  if 'A' ≤ c && c ≤ 'Z' then Char.ofNat (c.toNat + 32) else c

/-- `str.lower` (ASCII model). -/
def pyLower (s : String) : String := ⟨s.data.map pyLowerChar⟩

/-- Drop leading Python whitespace from a character list. -/
def dropSpaces : List Char → List Char
  | [] => []
  | c :: cs => if pySpaceChar c then dropSpaces cs else c :: cs

/-- `str.strip()`: remove leading and trailing Python whitespace. -/
def pyStrip (s : String) : String :=
  ⟨(dropSpaces (dropSpaces s.data.reverse).reverse)⟩

/-- Is `pre` a prefix of `cs`? -/
def listPrefixEq : List Char → List Char → Bool
  | [], _ => true
  | _ :: _, [] => false
  | p :: ps, c :: cs => p = c && listPrefixEq ps cs

/-- `str.startswith`. -/
def strStarts (s pre : String) : Bool := listPrefixEq pre.data s.data

/-- Substring test, as Python's `in` on strings. -/
def strContains (hay needle : String) : Bool :=
  (List.range (hay.data.length + 1)).any
    (fun i => listPrefixEq needle.data (hay.data.drop i))

/-- Does the string contain the character? -/
def strHasChar (s : String) (c : Char) : Bool := s.data.contains c

/-- The part of `s` after the first occurrence of `c`
(`s.split(c, 1)[1]`); empty when `c` does not occur. -/
def afterChar (c : Char) (s : String) : String := ⟨afterCharL c s.data⟩
  where afterCharL (c : Char) : List Char → List Char
    | [] => []
    | d :: ds => if d = c then ds else afterCharL c ds

/-- `any(w in low for w in ws)`. -/
def anyContains (low : String) (ws : List String) : Bool :=
  ws.any (fun w => strContains low w)

/-- `str.title()`: a letter is upper-cased when the previous character is not
a letter, lower-cased otherwise (ASCII model of Python's rule that the
decision is made on the preceding character's casedness). -/
def pyTitle (s : String) : String := ⟨go false s.data⟩
  where go (prevAlpha : Bool) : List Char → List Char
    | [] => []
    | c :: cs =>
        if c.isAlpha then
          (if prevAlpha then pyLowerChar c
           else if 'a' ≤ c && c ≤ 'z' then Char.ofNat (c.toNat - 32) else c)
            :: go true cs
        else c :: go false cs

/-! ## The name regex

`NAME_PAT = re.compile(r"\bmy\s+name\s+is\s+([A-Za-z][A-Za-z\-\'\s]{0,30})\b", re.I)`
searched with `re.search` (leftmost match; the `{0,30}` quantifier is greedy
and backtracks so that the final `\b` holds). -/

/-- `\w` (ASCII model). -/
def wordChar (c : Char) : Bool := c.isAlpha || c.isDigit || c = '_'

/-- The character class `[A-Za-z\-\'\s]` of the capture group. -/
def nameClassChar (c : Char) : Bool :=
  c.isAlpha || c = '-' || c = '\'' || pySpaceChar c

/-- Case-insensitive literal match; returns the rest on success. -/
def matchLit : List Char → List Char → Option (List Char)
  | [], cs => some cs
  | _ :: _, [] => none
  | p :: ps, c :: cs => if pyLowerChar c = pyLowerChar p then matchLit ps cs else none

/-- `\s+`: at least one whitespace character, maximal munch. -/
def matchSpaces1 : List Char → Option (List Char)
  | [] => none
  | c :: cs => if pySpaceChar c then some (dropSpaces cs) else none

/-- Does a word boundary `\b` hold between the last captured character and
the following input (list empty = end of string)? -/
def boundaryAfter (last : Char) : List Char → Bool
  | [] => wordChar last
  | c :: _ => wordChar last ≠ wordChar c

/-- Greedy capture of `[A-Za-z][A-Za-z\-\'\s]{0,30}` followed by `\b`:
`first` is the already-matched leading letter, `k` extra characters are
taken (longest first, backtracking down to 0). -/
def captureFrom (first : Char) (cs : List Char) : Option String :=
  let run := (cs.take 30).takeWhile nameClassChar
  tryLen run.length run
  where tryLen : Nat → List Char → Option String
    | k, run =>
      let taken := run.take k
      let lastC := (first :: taken).getLast (by simp)
      if boundaryAfter lastC (cs.drop k) then some ⟨first :: taken⟩
      else match k with
        | 0 => none
        | k' + 1 => tryLen k' run

/-- Try to match the whole pattern at the current position; `prev` is the
character just before the position (for the leading `\b`). -/
def matchNameAt (prev : Option Char) (cs : List Char) : Option String :=
  match prev with
  | some p => if wordChar p then none else matchNameBody cs
  | none => matchNameBody cs
  where matchNameBody (cs : List Char) : Option String :=
    match matchLit "my".data cs with
    | none => none
    | some r1 =>
      match matchSpaces1 r1 with
      | none => none
      | some r2 =>
        match matchLit "name".data r2 with
        | none => none
        | some r3 =>
          match matchSpaces1 r3 with
          | none => none
          | some r4 =>
            match matchLit "is".data r4 with
            | none => none
            | some r5 =>
              match matchSpaces1 r5 with
              | none => none
              | some r6 =>
                match r6 with
                | [] => none
                | c :: rest => if c.isAlpha then captureFrom c rest else none

/-- `NAME_PAT.search(text)`: scan positions left to right, return the first
capture-group match. -/
def findName (s : String) : Option String := go none s.data
  where go (prev : Option Char) : List Char → Option String
    | [] => none
    | c :: cs =>
      match matchNameAt prev (c :: cs) with
      | some r => some r
      | none => go (some c) cs

/-! ## Values

Python ints and floats in exact arithmetic, plus the function objects that a
bare allow-listed identifier such as `sin` evaluates to. -/

inductive Value where
  | vint (n : Int)
  | vfloat (q : Rat)
  | vfn (name : String)
  deriving DecidableEq, Repr

/-- Numeric content of a value, when it is a number. -/
def Value.toQ : Value → Option Rat
  | .vint n => some (mkRat n 1)
  | .vfloat q => some q
  | .vfn _ => none

/-- Is the value a float (for Python's int/float promotion)? -/
def Value.isFloat : Value → Bool
  | .vfloat _ => true
  | _ => false

/-! Exact rational arithmetic, written through `mkRat` so that every
operation evaluates inside the kernel. -/

def ratOfNat (n : Nat) : Rat := mkRat n 1
def ratOfInt (i : Int) : Rat := mkRat i 1
def rAdd (a b : Rat) : Rat := mkRat (a.num * b.den + b.num * a.den) (a.den * b.den)
def rSub (a b : Rat) : Rat := mkRat (a.num * b.den - b.num * a.den) (a.den * b.den)
def rMul (a b : Rat) : Rat := mkRat (a.num * b.num) (a.den * b.den)
def rDiv (a b : Rat) : Rat :=
  mkRat (a.num * b.den * (if b.num < 0 then -1 else 1)) (a.den * b.num.natAbs)
def rNeg (a : Rat) : Rat := mkRat (-a.num) a.den
def rPow (a : Rat) (n : Nat) : Rat := mkRat (a.num ^ n) (a.den ^ n)
/-- `math.floor` on an exact rational. -/
def rFloor (a : Rat) : Int := a.num.fdiv a.den
/-- `math.ceil` on an exact rational. -/
def rCeil (a : Rat) : Int := -((-a.num).fdiv a.den)

def typeErr : String := "unsupported operand type(s)"

/-- Apply a binary arithmetic operation with Python's int/float promotion:
both ints give an int, otherwise a float. -/
def numArith (f : Rat → Rat → Rat) (a b : Value) : Except String Value :=
  match a, b with
  | .vint x, .vint y => .ok (.vint ((f x y).num))
  | a, b =>
    match a.toQ, b.toQ with
    | some x, some y => .ok (.vfloat (f x y))
    | _, _ => .error typeErr

/-- `operator.add`. -/
def numAdd : Value → Value → Except String Value
  | .vint x, .vint y => .ok (.vint (x + y))
  | a, b => numArith rAdd a b

/-- `operator.sub`. -/
def numSub : Value → Value → Except String Value
  | .vint x, .vint y => .ok (.vint (x - y))
  | a, b => numArith rSub a b

/-- `operator.mul`. -/
def numMul : Value → Value → Except String Value
  | .vint x, .vint y => .ok (.vint (x * y))
  | a, b => numArith rMul a b

/-- `operator.truediv`: always float, `ZeroDivisionError` on zero divisor. -/
def numDiv (a b : Value) : Except String Value :=
  match a.toQ, b.toQ with
  | some x, some y =>
      if y.num = 0 then .error "division by zero" else .ok (.vfloat (rDiv x y))
  | _, _ => .error typeErr

/-- `operator.mod`: Python's floored modulo (result has the divisor's sign),
`ZeroDivisionError` on zero divisor. -/
def numMod (a b : Value) : Except String Value :=
  match a, b with
  | .vint x, .vint y =>
      if y = 0 then .error "integer division or modulo by zero"
      else .ok (.vint (Int.fmod x y))
  | a, b =>
    match a.toQ, b.toQ with
    | some x, some y =>
        if y.num = 0 then .error "float modulo"
        else .ok (.vfloat (rSub x (rMul y (ratOfInt (rFloor (rDiv x y))))))
    | _, _ => .error typeErr

/-- `operator.pow`.  Exact model: integral exponents are computed exactly
(`int ** nonnegative int` is an int, any float operand or a negative
exponent gives a float); a non-integral exponent is outside the exact
model and signals a model-level error. -/
def numPow (a b : Value) : Except String Value :=
  match a, b with
  | .vint x, .vint y =>
      if 0 ≤ y then .ok (.vint (x ^ y.toNat))
      else if x = 0 then .error "0.0 cannot be raised to a negative power"
      else .ok (.vfloat (rDiv (ratOfInt 1) (rPow (ratOfInt x) (-y).toNat)))
  | a, b =>
    match a.toQ, b.toQ with
    | some x, some y =>
        if y.den = 1 then
          if 0 ≤ y.num then .ok (.vfloat (rPow x y.num.toNat))
          else if x.num = 0 then .error "0.0 cannot be raised to a negative power"
          else .ok (.vfloat (rDiv (ratOfInt 1) (rPow x (-y.num).toNat)))
        else .error "model: non-integral exponent"
    | _, _ => .error typeErr

/-- `operator.neg`. -/
def numNeg : Value → Except String Value
  | .vint n => .ok (.vint (-n))
  | .vfloat q => .ok (.vfloat (rNeg q))
  | .vfn _ => .error typeErr

/-- `operator.pos`. -/
def numPos : Value → Except String Value
  | .vint n => .ok (.vint n)
  | .vfloat q => .ok (.vfloat q)
  | .vfn _ => .error typeErr

/-! ## The expression AST

One constructor per AST node shape that `eval_expr._eval` can receive from
`ast.parse(expr, mode="eval")`: the five shapes dispatched on (`Num`,
`BinOp`, `UnaryOp`, `Call`, `Name`) plus representative shapes outside them
(non-numeric constants, attribute access, containers, comparison,
conditional and lambda expressions), which all reach the raising branch. -/

/-- Python binary operator node kinds (`ast.BinOp.op`). -/
inductive BinK where
  | add | sub | mult | div | mod | pow | floorDiv | lshift | rshift
  | bitOr | bitXor | bitAnd | matMult
  deriving DecidableEq, Repr

/-- Python unary operator node kinds (`ast.UnaryOp.op`). -/
inductive UnK where
  | uadd | usub | uNot | invert
  deriving DecidableEq, Repr

inductive PExpr where
  /-- `ast.Num`: a numeric `ast.Constant` (int, float). -/
  | num (v : Value)
  /-- A string `ast.Constant`. -/
  | strLit (s : String)
  /-- A boolean `ast.Constant` (`ast.Num` excludes `bool`). -/
  | boolLit (b : Bool)
  /-- The `None` constant. -/
  | noneLit
  | binOp (k : BinK) (l r : PExpr)
  | unaryOp (k : UnK) (e : PExpr)
  /-- `ast.Call` with a spine of positional `args` and a spine of
  `keywords`. -/
  | call (fn : PExpr) (args : PExpr) (kws : PExpr)
  | name (id : String)
  /-- `ast.Attribute`. -/
  | attrGet (e : PExpr) (field : String)
  /-- `ast.List` with a spine of elements. -/
  | listLit (xs : PExpr)
  /-- `ast.Tuple` with a spine of elements. -/
  | tupleLit (xs : PExpr)
  /-- `ast.Compare` (e.g. `a == b`, `a < b`), one comparator. -/
  | compareE (l r : PExpr)
  /-- `ast.IfExp`. -/
  | ifExp (c t e : PExpr)
  /-- `ast.Lambda` (body irrelevant to the evaluator). -/
  | lambdaE
  /-- Spine encoding of the Python-side node list `ast.Call.args`
  (and of container element lists): not itself a Python node shape. -/
  | argNil
  | argCons (head tail : PExpr)
  /-- Spine encoding of `ast.Call.keywords`: not itself a Python node
  shape; its value expressions are never evaluated, as in the source. -/
  | kwNil
  | kwCons (key : String) (v : PExpr) (tail : PExpr)
  deriving DecidableEq, Repr

/-- Turn a Lean-side list of expressions into an argument spine. -/
def argSpine : List PExpr → PExpr
  | [] => .argNil
  | a :: as => .argCons a (argSpine as)

/-- Turn a Lean-side list of keywords into a keyword spine. -/
def kwSpine : List (String × PExpr) → PExpr
  | [] => .kwNil
  | (k, v) :: ks => .kwCons k v (kwSpine ks)

/-- `ALLOWED_OPS` restricted to binary operator keys:
`Add, Sub, Mult, Div, Pow, Mod`. -/
def allowedBin : BinK → Option (Value → Value → Except String Value)
  | .add => some numAdd
  | .sub => some numSub
  | .mult => some numMul
  | .div => some numDiv
  | .pow => some numPow
  | .mod => some numMod
  | _ => none

/-- `ALLOWED_OPS` restricted to unary operator keys: `USub, UAdd`. -/
def allowedUn : UnK → Option (Value → Except String Value)
  | .usub => some numNeg
  | .uadd => some numPos
  | _ => none

/-- An entry of `ALLOWED_NAMES`: a numeric constant or a math function. -/
inductive NEntry where
  | nconst (id : String)
  | nfun (id : String)
  deriving DecidableEq, Repr

def constNames : List String := ["pi", "e", "tau"]

def funcNames : List String :=
  ["sin", "cos", "tan", "asin", "acos", "atan",
   "sqrt", "log", "log10", "exp", "floor", "ceil"]

/-- `ALLOWED_NAMES` as a lookup: constants `pi, e, tau` and the twelve
math functions. -/
def lookupName (id : String) : Option NEntry :=
  if constNames.contains id then some (.nconst id)
  else if funcNames.contains id then some (.nfun id)
  else none

/-- The semantics of the host `math` module used by the evaluator: values of
the constants and behavior of the functions on evaluated arguments
(arity errors, domain errors and the float results are all inside `fn`). -/
structure MathSem where
  const : String → Rat
  fn : String → List Value → Except String Value

def unsupportedMsg : String := "Unsupported expression"

/-- `fn(*args)` where `fn = ALLOWED_NAMES[...]`: calling a float constant
raises `TypeError`; calling a math function defers to the math semantics. -/
def applyEntry (S : MathSem) : NEntry → List Value → Except String Value
  | .nconst _, _ => .error "float object is not callable"
  | .nfun f, vs => S.fn f vs

/-- Extract the single value of an evaluated expression (an expression
yields a one-element list, a spine yields the list of its elements; a spine
in expression position is not a Python node shape and is rejected). -/
def one : List Value → Except String Value
  | [v] => .ok v
  | _ => .error unsupportedMsg

/-- `eval_expr._eval`: the recursive tree-walk.  An expression node yields a
one-element list; an argument spine yields the list of its elements
(`[_eval(a) for a in node.args]`).  Each allow-listed node shape is handled;
every other shape falls through to
`raise ValueError("Unsupported expression")`. -/
def evalCore (S : MathSem) : PExpr → Except String (List Value)
  | .num v => .ok [v]
  | .binOp k l r =>
      match allowedBin k with
      | some f => do
          let a ← one (← evalCore S l)
          let b ← one (← evalCore S r)
          let v ← f a b
          .ok [v]
      | none => .error unsupportedMsg
  | .unaryOp k e =>
      match allowedUn k with
      | some f => do
          let a ← one (← evalCore S e)
          let v ← f a
          .ok [v]
      | none => .error unsupportedMsg
  | .call fn args _kws =>
      match fn with
      | .name id =>
          match lookupName id with
          | some entry => do
              let vs ← evalCore S args
              let v ← applyEntry S entry vs
              .ok [v]
          | none => .error unsupportedMsg
      | _ => .error unsupportedMsg
  | .name id =>
      match lookupName id with
      | some (.nconst c) => .ok [.vfloat (S.const c)]
      | some (.nfun f) => .ok [.vfn f]
      | none => .error unsupportedMsg
  | .argNil => .ok []
  | .argCons h t => do
      let v ← one (← evalCore S h)
      let vs ← evalCore S t
      .ok (v :: vs)
  | _ => .error unsupportedMsg

/-- `eval_expr._eval` at an expression node. -/
def evalNode (S : MathSem) (t : PExpr) : Except String Value :=
  match evalCore S t with
  | .ok vs => one vs
  | .error e => .error e

/-- Is the constructor an actual Python AST node shape (rather than the
spine encoding of an argument or keyword list)? -/
def isPyShape : PExpr → Bool
  | .argNil => false
  | .argCons _ _ => false
  | .kwNil => false
  | .kwCons _ _ _ => false
  | _ => true

/-- Is the node's shape one of the five shapes the evaluator dispatches on
(with an allow-listed operator / name where the dispatch demands one)?
A Python node fails this test exactly when `_eval` raises on it without
looking at its children. -/
def topShapeAllowed : PExpr → Bool
  | .num _ => true
  | .binOp k _ _ => (allowedBin k).isSome
  | .unaryOp k _ => (allowedUn k).isSome
  | .call (.name id) _ _ => (lookupName id).isSome
  | .call _ _ _ => false
  | .name id => (lookupName id).isSome
  | _ => false

/-! ## The spec's reference evaluator -/

/-- Modelled from the spec: "a literal evaluates to itself; a binary node
evaluates both children and applies the looked-up operator function; a unary
node evaluates its operand and applies the looked-up unary function; a call
node evaluates every argument and applies the looked-up function,
arity-checked; an identifier node looks up its value in the constant table.
Any node shape, operator, identifier, or function name not present in the
allow-lists must cause immediate rejection."  The host math functions and
constants are interpreted by the same `MathSem` as the code's evaluator;
spines evaluate to their lists of argument values, as in `evalCore`. -/
def specCore (S : MathSem) : PExpr → Except String (List Value)
  | .num v => .ok [v]
  | .binOp k l r =>
      match allowedBin k with
      | some f => do
          let a ← one (← specCore S l)
          let b ← one (← specCore S r)
          let v ← f a b
          .ok [v]
      | none => .error unsupportedMsg
  | .unaryOp k e =>
      match allowedUn k with
      | some f => do
          let a ← one (← specCore S e)
          let v ← f a
          .ok [v]
      | none => .error unsupportedMsg
  | .call (.name f) args .kwNil =>
      if funcNames.contains f then do
        let vs ← specCore S args
        if vs.length = 1 then do
          let v ← S.fn f vs
          .ok [v]
        else .error "arity"
      else .error unsupportedMsg
  | .name c =>
      if constNames.contains c then .ok [.vfloat (S.const c)]
      else .error unsupportedMsg
  | .argNil => .ok []
  | .argCons h t => do
      let v ← one (← specCore S h)
      let vs ← specCore S t
      .ok (v :: vs)
  | _ => .error unsupportedMsg

/-- The spec's reference evaluation of an expression node. -/
def specEval (S : MathSem) (t : PExpr) : Except String Value :=
  match specCore S t with
  | .ok vs => one vs
  | .error e => .error e

/-- Expressions built only from allow-listed tokens in the sense of the
spec's grammar: numeric literals, the six allowed binary operators, unary
plus/minus, single-argument calls (no keywords) to the twelve allow-listed
functions, and the three allow-listed constants. -/
def allowedTree : PExpr → Bool
  | .num _ => true
  | .binOp k l r => (allowedBin k).isSome && allowedTree l && allowedTree r
  | .unaryOp k e => (allowedUn k).isSome && allowedTree e
  | .call (.name f) (.argCons a .argNil) .kwNil => funcNames.contains f && allowedTree a
  | .name c => constNames.contains c
  | _ => false

/-! ## A concrete math semantics

Exact-arithmetic model of the host `math` functions: exact where the true
float result is a representable exact value the claims exercise
(`sqrt` of perfect squares, `floor`/`ceil`, values at 0/1), a model-level
error where the true result is irrational. -/

/-- The exact square root of a natural number, when it is a perfect
square. -/
def natRoot (n : Nat) : Option Nat :=
  (List.range (n + 1)).find? (fun k => k * k = n)

/-- `math.sqrt` in the exact model. -/
def ratSqrt (q : Rat) : Except String Value :=
  if q.num < 0 then .error "math domain error"
  else
    match natRoot q.num.toNat, natRoot q.den with
    | some a, some b => .ok (.vfloat (mkRat a b))
    | _, _ => .error "model: irrational result"

/-- Is the rational outside `[-1, 1]` (domain check of `asin`/`acos`)? -/
def outsideUnit (q : Rat) : Bool :=
  q.num < -(q.den : Int) || (q.den : Int) < q.num

/-- One-argument math functions of `ALLOWED_NAMES` in the exact model. -/
def modelFn1 (name : String) (q : Rat) : Except String Value :=
  if name = "sqrt" then ratSqrt q
  else if name = "floor" then .ok (.vint (rFloor q))
  else if name = "ceil" then .ok (.vint (rCeil q))
  else if name = "exp" then
    if q.num = 0 then .ok (.vfloat 1) else .error "model: irrational result"
  else if name = "log" then
    if q.num ≤ 0 then .error "math domain error"
    else if q = 1 then .ok (.vfloat 0) else .error "model: irrational result"
  else if name = "log10" then
    if q.num ≤ 0 then .error "math domain error"
    else if q = 1 then .ok (.vfloat 0)
    else if q = 10 then .ok (.vfloat 1) else .error "model: irrational result"
  else if name = "sin" || name = "tan" || name = "atan" then
    if q.num = 0 then .ok (.vfloat 0) else .error "model: irrational result"
  else if name = "cos" then
    if q.num = 0 then .ok (.vfloat 1) else .error "model: irrational result"
  else if name = "asin" then
    if q.num = 0 then .ok (.vfloat 0)
    else if outsideUnit q then .error "math domain error"
    else .error "model: irrational result"
  else if name = "acos" then
    if q = 1 then .ok (.vfloat 0)
    else if outsideUnit q then .error "math domain error"
    else .error "model: irrational result"
  else .error "model: unknown function"

/-- The concrete `MathSem`: `fn` also carries Python's `TypeError` behavior
on non-numeric arguments and on a wrong number of arguments (every function
takes one argument; `math.log` also accepts a second, the base). -/
def SModel : MathSem where
  const := fun c =>
    if c = "pi" then mkRat 3141592653589793 (10 ^ 15)
    else if c = "e" then mkRat 2718281828459045 (10 ^ 15)
    else if c = "tau" then mkRat 6283185307179586 (10 ^ 15)
    else 0
  fn := fun name vs =>
    match vs with
    | [v] =>
        match v.toQ with
        | some q => modelFn1 name q
        | none => .error typeErr
    | [v, w] =>
        if name = "log" then
          match v.toQ, w.toQ with
          | some x, some b =>
              if x.num ≤ 0 || b.num ≤ 0 then .error "math domain error"
              else if x = 1 && b ≠ 1 then .ok (.vfloat 0)
              else .error "model: irrational result"
          | _, _ => .error typeErr
        else .error "TypeError: wrong number of arguments"
    | _ => .error "TypeError: wrong number of arguments"

/-! ## Tokenizing and parsing

`eval_expr` delegates parsing to the host's `ast.parse(expr, mode="eval")`.
The lexer and recursive-descent parser below model that parser on the
arithmetic fragment (numeric literals, identifiers, calls with positional
and keyword arguments, attribute access, parentheses, `+ - * / // % **`,
unary `+`/`-`) with Python's precedence: `**` is right-associative and
binds tighter than unary minus on its right; a string outside the fragment
is a syntax error here as each such string either is a Python syntax error
or parses to a node shape the evaluator rejects. -/

inductive Tok where
  | tnum (v : Value)
  | tid (s : String)
  | lparen | rparen | comma | eqTok | dot
  | plus | minus | star | slash | dslash | percent | dstar
  deriving DecidableEq, Repr

def identChar (c : Char) : Bool := c.isAlpha || c.isDigit || c = '_'

def digitsVal (cs : List Char) : Nat :=
  cs.foldl (fun acc c => 10 * acc + (c.toNat - 48)) 0

/-- Lex one numeric literal (digits, optional fraction, optional exponent);
returns its exact value and the remaining characters. -/
def lexNum (cs : List Char) : Value × List Char :=
  let ip := cs.takeWhile Char.isDigit
  let r1 := cs.dropWhile Char.isDigit
  let (fp, r2, isFl) :=
    match r1 with
    | '.' :: r => (r.takeWhile Char.isDigit, r.dropWhile Char.isDigit, true)
    | _ => ([], r1, false)
  let mant : Rat := rAdd (ratOfNat (digitsVal ip)) (mkRat (digitsVal fp) (10 ^ fp.length))
  let expRes : Option (Int × List Char) :=
    match r2 with
    | 'e' :: '+' :: d :: r => if d.isDigit then
        some ((digitsVal ((d :: r).takeWhile Char.isDigit) : Int), (d :: r).dropWhile Char.isDigit) else none
    | 'e' :: '-' :: d :: r => if d.isDigit then
        some (-(digitsVal ((d :: r).takeWhile Char.isDigit) : Int), (d :: r).dropWhile Char.isDigit) else none
    | 'e' :: d :: r => if d.isDigit then
        some ((digitsVal ((d :: r).takeWhile Char.isDigit) : Int), (d :: r).dropWhile Char.isDigit) else none
    | 'E' :: '+' :: d :: r => if d.isDigit then
        some ((digitsVal ((d :: r).takeWhile Char.isDigit) : Int), (d :: r).dropWhile Char.isDigit) else none
    | 'E' :: '-' :: d :: r => if d.isDigit then
        some (-(digitsVal ((d :: r).takeWhile Char.isDigit) : Int), (d :: r).dropWhile Char.isDigit) else none
    | 'E' :: d :: r => if d.isDigit then
        some ((digitsVal ((d :: r).takeWhile Char.isDigit) : Int), (d :: r).dropWhile Char.isDigit) else none
    | _ => none
  match expRes with
  | some (k, r3) =>
      let scaled := if 0 ≤ k then rMul mant (ratOfNat (10 ^ k.toNat))
                    else rDiv mant (ratOfNat (10 ^ (-k).toNat))
      (.vfloat scaled, r3)
  | none =>
      if isFl then (.vfloat mant, r2)
      else (.vint (digitsVal ip : Int), r2)

def tokenize : Nat → List Char → Except String (List Tok)
  | 0, _ => .error "model: lexer fuel"
  | _ + 1, [] => .ok []
  | f + 1, c :: cs =>
    if c = ' ' || c = '\t' then tokenize f cs
    else if c.isDigit then
      let (v, rest) := lexNum (c :: cs)
      do
        let ts ← tokenize f rest
        .ok (.tnum v :: ts)
    else if c = '.' then
      match cs with
      | d :: _ =>
          if d.isDigit then
            let (v, rest) := lexNum (c :: cs)
            do
              let ts ← tokenize f rest
              .ok (.tnum v :: ts)
          else do
            let ts ← tokenize f cs
            .ok (.dot :: ts)
      | [] => do
          let ts ← tokenize f cs
          .ok (.dot :: ts)
    else if c.isAlpha || c = '_' then
      let id : String := ⟨c :: cs.takeWhile identChar⟩
      do
        let ts ← tokenize f (cs.dropWhile identChar)
        .ok (.tid id :: ts)
    else if c = '*' then
      match cs with
      | '*' :: r => do
          let ts ← tokenize f r
          .ok (.dstar :: ts)
      | _ => do
          let ts ← tokenize f cs
          .ok (.star :: ts)
    else if c = '/' then
      match cs with
      | '/' :: r => do
          let ts ← tokenize f r
          .ok (.dslash :: ts)
      | _ => do
          let ts ← tokenize f cs
          .ok (.slash :: ts)
    else if c = '+' then do
      let ts ← tokenize f cs
      .ok (.plus :: ts)
    else if c = '-' then do
      let ts ← tokenize f cs
      .ok (.minus :: ts)
    else if c = '%' then do
      let ts ← tokenize f cs
      .ok (.percent :: ts)
    else if c = '(' then do
      let ts ← tokenize f cs
      .ok (.lparen :: ts)
    else if c = ')' then do
      let ts ← tokenize f cs
      .ok (.rparen :: ts)
    else if c = ',' then do
      let ts ← tokenize f cs
      .ok (.comma :: ts)
    else if c = '=' then do
      let ts ← tokenize f cs
      .ok (.eqTok :: ts)
    else .error "invalid syntax"

def synErr : String := "invalid syntax"

mutual

/-- `expr: term (('+'|'-') term)*`. -/
def parseAdd : Nat → List Tok → Except String (PExpr × List Tok)
  | 0, _ => .error synErr
  | f + 1, ts => do
      let (e, r) ← parseTerm f ts
      parseAddRest f e r

def parseAddRest : Nat → PExpr → List Tok → Except String (PExpr × List Tok)
  | 0, _, _ => .error synErr
  | f + 1, e, ts =>
    match ts with
    | .plus :: r => do
        let (e2, r2) ← parseTerm f r
        parseAddRest f (.binOp .add e e2) r2
    | .minus :: r => do
        let (e2, r2) ← parseTerm f r
        parseAddRest f (.binOp .sub e e2) r2
    | _ => .ok (e, ts)

/-- `term: factor (('*'|'/'|'//'|'%') factor)*`. -/
def parseTerm : Nat → List Tok → Except String (PExpr × List Tok)
  | 0, _ => .error synErr
  | f + 1, ts => do
      let (e, r) ← parseFactor f ts
      parseTermRest f e r

def parseTermRest : Nat → PExpr → List Tok → Except String (PExpr × List Tok)
  | 0, _, _ => .error synErr
  | f + 1, e, ts =>
    match ts with
    | .star :: r => do
        let (e2, r2) ← parseFactor f r
        parseTermRest f (.binOp .mult e e2) r2
    | .slash :: r => do
        let (e2, r2) ← parseFactor f r
        parseTermRest f (.binOp .div e e2) r2
    | .dslash :: r => do
        let (e2, r2) ← parseFactor f r
        parseTermRest f (.binOp .floorDiv e e2) r2
    | .percent :: r => do
        let (e2, r2) ← parseFactor f r
        parseTermRest f (.binOp .mod e e2) r2
    | _ => .ok (e, ts)

/-- `factor: ('+'|'-') factor | power`. -/
def parseFactor : Nat → List Tok → Except String (PExpr × List Tok)
  | 0, _ => .error synErr
  | f + 1, ts =>
    match ts with
    | .plus :: r => do
        let (e, r2) ← parseFactor f r
        .ok (.unaryOp .uadd e, r2)
    | .minus :: r => do
        let (e, r2) ← parseFactor f r
        .ok (.unaryOp .usub e, r2)
    | _ => parsePower f ts

/-- `power: primary ['**' factor]` (right-associative). -/
def parsePower : Nat → List Tok → Except String (PExpr × List Tok)
  | 0, _ => .error synErr
  | f + 1, ts => do
      let (a, r) ← parsePrimary f ts
      match r with
      | .dstar :: r2 => do
          let (b, r3) ← parseFactor f r2
          .ok (.binOp .pow a b, r3)
      | _ => .ok (a, r)

/-- `primary: atom trailer*` with call and attribute trailers. -/
def parsePrimary : Nat → List Tok → Except String (PExpr × List Tok)
  | 0, _ => .error synErr
  | f + 1, ts => do
      let (a, r) ← parseAtom f ts
      parseTrailers f a r

def parseTrailers : Nat → PExpr → List Tok → Except String (PExpr × List Tok)
  | 0, _, _ => .error synErr
  | f + 1, a, ts =>
    match ts with
    | .lparen :: .rparen :: r2 => parseTrailers f (.call a .argNil .kwNil) r2
    | .lparen :: r => do
        let (args, kws, r2) ← parseArgs f r
        parseTrailers f (.call a (argSpine args) (kwSpine kws)) r2
    | .dot :: .tid fld :: r => parseTrailers f (.attrGet a fld) r
    | _ => .ok (a, ts)

/-- `atom: NUMBER | NAME | '(' expr ')'`. -/
def parseAtom : Nat → List Tok → Except String (PExpr × List Tok)
  | 0, _ => .error synErr
  | f + 1, ts =>
    match ts with
    | .tnum v :: r => .ok (.num v, r)
    | .tid s :: r => .ok (.name s, r)
    | .lparen :: r => do
        let (e, r2) ← parseAdd f r
        match r2 with
        | .rparen :: r3 => .ok (e, r3)
        | _ => .error synErr
    | _ => .error synErr

/-- Argument list of a call, up to and including the closing parenthesis;
a positional argument after a keyword argument is a syntax error, as in
Python. -/
def parseArgs : Nat → List Tok → Except String (List PExpr × List (String × PExpr) × List Tok)
  | 0, _ => .error synErr
  | f + 1, ts =>
    match ts with
    | .tid x :: .eqTok :: r => do
        let (e, r2) ← parseAdd f r
        match r2 with
        | .comma :: r3 => do
            let (args, kws, r4) ← parseArgs f r3
            match args with
            | [] => .ok ([], (x, e) :: kws, r4)
            | _ :: _ => .error "positional argument follows keyword argument"
        | .rparen :: r3 => .ok ([], [(x, e)], r3)
        | _ => .error synErr
    | _ => do
        let (e, r2) ← parseAdd f ts
        match r2 with
        | .comma :: r3 => do
            let (args, kws, r4) ← parseArgs f r3
            .ok (e :: args, kws, r4)
        | .rparen :: r3 => .ok ([e], [], r3)
        | _ => .error synErr

end

/-- `ast.parse(expr, mode="eval").body` on the arithmetic fragment. -/
def parseExprStr (s : String) : Except String PExpr := do
  let ts ← tokenize (s.length + 1) s.data
  let (e, rest) ← parseAdd (4 * s.length + 16) ts
  match rest with
  | [] => .ok e
  | _ => .error synErr

/-- `eval_expr`: parse, then walk the tree with `_eval`. -/
def eval_expr (S : MathSem) (s : String) : Except String Value := do
  let e ← parseExprStr s
  evalNode S e

/-! ## JSON values

`self.memory` is a Python object produced by literal construction or by
`json.load`, so it is modelled by a JSON-like value.  `json.load` keeps the
int/float distinction of JSON numbers; `jnum` carries that flag. -/

inductive JVal where
  | jnull
  | jbool (b : Bool)
  | jnum (q : Rat) (isFl : Bool)
  | jstr (s : String)
  | jarr (xs : List JVal)
  | jobj (fields : List (String × JVal))

mutual

def sizeJ : JVal → Nat
  | .jnull => 1
  | .jbool _ => 1
  | .jnum _ _ => 1
  | .jstr _ => 1
  | .jarr xs => 1 + sizeJL xs
  | .jobj fs => 1 + sizeJF fs

def sizeJL : List JVal → Nat
  | [] => 0
  | x :: xs => sizeJ x + sizeJL xs

def sizeJF : List (String × JVal) → Nat
  | [] => 0
  | (_, v) :: fs => sizeJ v + sizeJF fs

end

mutual

def beqJ : JVal → JVal → Bool
  | .jnull, .jnull => true
  | .jbool a, .jbool b => a = b
  | .jnum a fa, .jnum b fb => a = b && fa = fb
  | .jstr a, .jstr b => a = b
  | .jarr xs, .jarr ys => beqJL xs ys
  | .jobj fs, .jobj gs => beqJF fs gs
  | _, _ => false

def beqJL : List JVal → List JVal → Bool
  | [], [] => true
  | x :: xs, y :: ys => beqJ x y && beqJL xs ys
  | _, _ => false

def beqJF : List (String × JVal) → List (String × JVal) → Bool
  | [], [] => true
  | (k, v) :: fs, (l, w) :: gs => k = l && beqJ v w && beqJF fs gs
  | _, _ => false

end

/-! ## `json.dump(..., ensure_ascii=False, indent=2)` -/

/-- The escaping of one character inside a JSON string: `"` and `\` get a
backslash, the five named control escapes are used, the remaining control
characters become `\u00XX` (lowercase hex); everything else is emitted
raw (`ensure_ascii=False`). -/
def escChar (c : Char) : List Char :=
  if c = '"' then ['\\', '"']
  else if c = '\\' then ['\\', '\\']
  else if c = '\x08' then ['\\', 'b']
  else if c = '\t' then ['\\', 't']
  else if c = '\n' then ['\\', 'n']
  else if c = '\x0c' then ['\\', 'f']
  else if c = '\r' then ['\\', 'r']
  else if c.toNat < 32 then
    ['\\', 'u', '0', '0', hexDig (c.toNat / 16), hexDig (c.toNat % 16)]
  else [c]
  where hexDig (n : Nat) : Char :=
    if n < 10 then Char.ofNat (48 + n) else Char.ofNat (87 + n)

def escList : List Char → List Char
  | [] => []
  | c :: cs => escChar c ++ escList cs

/-- A quoted, escaped JSON string. -/
def printStr (s : String) : List Char := '"' :: escList s.data ++ ['"']

/-- Decimal digits of a natural number. -/
def natDigits (n : Nat) : List Char :=
  (toString n).data

/-- The serialization of a JSON number: ints as digits, floats with a
decimal expansion when the denominator allows one (which covers every
number `json.load` itself produced), a model marker otherwise. -/
def printNum (q : Rat) (isFl : Bool) : List Char :=
  let a : Rat := if q.num < 0 then rNeg q else q
  let sign : List Char := if q.num < 0 then ['-'] else []
  sign ++
    (if !isFl && a.den = 1 then natDigits a.num.toNat
     else
      match (List.range 18).find? (fun k => (rMul a (ratOfNat (10 ^ k))).den = 1) with
      | some k =>
          let scaled := (rMul a (ratOfNat (10 ^ k))).num.toNat
          if k = 0 then natDigits scaled ++ ['.', '0']
          else
            let ds := natDigits scaled
            let ds := List.replicate (k + 1 - ds.length) '0' ++ ds
            ds.take (ds.length - k) ++ '.' :: ds.drop (ds.length - k)
      | none => "model".data)

mutual

/-- `json.dump(v, f, ensure_ascii=False, indent=2)` at indentation level
`lvl`: containers put each element on its own line, indented two spaces
per level; item separator `,`, key separator `: `. -/
def printJ : Nat → JVal → List Char
  | _, .jnull => ['n', 'u', 'l', 'l']
  | _, .jbool true => ['t', 'r', 'u', 'e']
  | _, .jbool false => ['f', 'a', 'l', 's', 'e']
  | _, .jnum q isFl => printNum q isFl
  | _, .jstr s => printStr s
  | _, .jarr [] => ['[', ']']
  | lvl, .jarr (x :: xs) =>
      '[' :: '\n' :: List.replicate (2 * (lvl + 1)) ' '
        ++ printJ (lvl + 1) x ++ printItems (lvl + 1) xs
        ++ '\n' :: List.replicate (2 * lvl) ' ' ++ [']']
  | _, .jobj [] => ['\x7b', '\x7d']
  | lvl, .jobj ((k, v) :: fs) =>
      '\x7b' :: '\n' :: List.replicate (2 * (lvl + 1)) ' '
        ++ printStr k ++ ':' :: ' ' :: printJ (lvl + 1) v ++ printFields (lvl + 1) fs
        ++ '\n' :: List.replicate (2 * lvl) ' ' ++ ['\x7d']

def printItems : Nat → List JVal → List Char
  | _, [] => []
  | lvl, x :: xs =>
      ',' :: '\n' :: List.replicate (2 * lvl) ' ' ++ printJ lvl x ++ printItems lvl xs

def printFields : Nat → List (String × JVal) → List Char
  | _, [] => []
  | lvl, (k, v) :: fs =>
      ',' :: '\n' :: List.replicate (2 * lvl) ' '
        ++ printStr k ++ ':' :: ' ' :: printJ lvl v ++ printFields lvl fs

end

def jsonPrint (v : JVal) : String := ⟨printJ 0 v⟩

/-! ## `json.load` -/

/-- JSON whitespace. -/
def jsonWs (c : Char) : Bool := c = ' ' || c = '\t' || c = '\n' || c = '\r'

def skipWs : List Char → List Char
  | [] => []
  | c :: cs => if jsonWs c then skipWs cs else c :: cs

def hexVal (c : Char) : Option Nat :=
  if '0' ≤ c && c ≤ '9' then some (c.toNat - 48)
  else if 'a' ≤ c && c ≤ 'f' then some (c.toNat - 87)
  else if 'A' ≤ c && c ≤ 'F' then some (c.toNat - 55)
  else none

def consStr (c : Char) : Option (String × List Char) → Option (String × List Char)
  | some (s, r) => some (⟨c :: s.data⟩, r)
  | none => none

/-- The body of a JSON string after the opening quote, with unescaping;
raw control characters are rejected (strict mode), as is an escape that
does not denote a Unicode scalar value (model restriction: Lean characters
cannot carry lone surrogates). -/
def parseStrBody : List Char → Option (String × List Char)
  | [] => none
  | c :: r =>
      if c = '"' then some ("", r)
      else if c = '\\' then
        match r with
        | [] => none
        | e :: r1 =>
          if e = 'u' then
            match r1 with
            | h1 :: h2 :: h3 :: h4 :: r2 =>
                match hexVal h1, hexVal h2, hexVal h3, hexVal h4 with
                | some a, some b, some c, some d =>
                    let n := ((a * 16 + b) * 16 + c) * 16 + d
                    if n < 0xd800 || 0xdfff < n then
                      consStr (Char.ofNat n) (parseStrBody r2)
                    else none
                | _, _, _, _ => none
            | _ => none
          else if e = '"' then consStr '"' (parseStrBody r1)
          else if e = '\\' then consStr '\\' (parseStrBody r1)
          else if e = '/' then consStr '/' (parseStrBody r1)
          else if e = 'b' then consStr '\x08' (parseStrBody r1)
          else if e = 'f' then consStr '\x0c' (parseStrBody r1)
          else if e = 'n' then consStr '\n' (parseStrBody r1)
          else if e = 'r' then consStr '\r' (parseStrBody r1)
          else if e = 't' then consStr '\t' (parseStrBody r1)
          else none
      else if c.toNat < 32 then none
      else consStr c (parseStrBody r)

/-- A JSON number (integer, optional fraction and exponent). -/
def parseNum (cs : List Char) : Option (JVal × List Char) :=
  let (neg, cs1) := match cs with
    | '-' :: r => (true, r)
    | _ => (false, cs)
  let ip := cs1.takeWhile Char.isDigit
  let r1 := cs1.dropWhile Char.isDigit
  if ip.isEmpty then none
  else
    let (fp, r2, isFl1) := match r1 with
      | '.' :: r => (r.takeWhile Char.isDigit, r.dropWhile Char.isDigit, true)
      | _ => ([], r1, false)
    if isFl1 && fp.isEmpty then none
    else
      let mant : Rat := rAdd (ratOfNat (digitsVal ip)) (mkRat (digitsVal fp) (10 ^ fp.length))
      let expPart : Option (Option (Int × List Char)) := match r2 with
        | 'e' :: '+' :: r => some (if (r.takeWhile Char.isDigit).isEmpty then none
            else some ((digitsVal (r.takeWhile Char.isDigit) : Int), r.dropWhile Char.isDigit))
        | 'e' :: '-' :: r => some (if (r.takeWhile Char.isDigit).isEmpty then none
            else some (-(digitsVal (r.takeWhile Char.isDigit) : Int), r.dropWhile Char.isDigit))
        | 'e' :: r => some (if (r.takeWhile Char.isDigit).isEmpty then none
            else some ((digitsVal (r.takeWhile Char.isDigit) : Int), r.dropWhile Char.isDigit))
        | 'E' :: '+' :: r => some (if (r.takeWhile Char.isDigit).isEmpty then none
            else some ((digitsVal (r.takeWhile Char.isDigit) : Int), r.dropWhile Char.isDigit))
        | 'E' :: '-' :: r => some (if (r.takeWhile Char.isDigit).isEmpty then none
            else some (-(digitsVal (r.takeWhile Char.isDigit) : Int), r.dropWhile Char.isDigit))
        | 'E' :: r => some (if (r.takeWhile Char.isDigit).isEmpty then none
            else some ((digitsVal (r.takeWhile Char.isDigit) : Int), r.dropWhile Char.isDigit))
        | _ => none
      match expPart with
      | none =>
          let v := if neg then rNeg mant else mant
          some (.jnum v isFl1, r2)
      | some none => none
      | some (some (k, r3)) =>
          let scaled := if 0 ≤ k then rMul mant (ratOfNat (10 ^ k.toNat))
                        else rDiv mant (ratOfNat (10 ^ (-k).toNat))
          let v := if neg then rNeg scaled else scaled
          some (.jnum v true, r3)

/-- What the JSON parser is currently parsing: a value, the items of a
non-empty array, or the members of a non-empty object. -/
inductive PMode where
  | val | items | fields
  deriving DecidableEq, Repr

/-- Recursive-descent JSON parser, structural on its fuel (every recursive
call decrements it; `items`/`fields` wrap their results back into
`jarr`/`jobj`). -/
def parseJ : Nat → PMode → List Char → Option (JVal × List Char)
  | 0, _, _ => none
  | f + 1, .val, cs0 =>
    (match skipWs cs0 with
     | [] => none
     | c :: r =>
       if c = '\x7b' then
         match skipWs r with
         | [] => none
         | c2 :: r2 =>
             if c2 = '\x7d' then some (.jobj [], r2)
             else parseJ f .fields (c2 :: r2)
       else if c = '[' then
         match skipWs r with
         | [] => none
         | c2 :: r2 =>
             if c2 = ']' then some (.jarr [], r2)
             else parseJ f .items (c2 :: r2)
       else if c = '"' then
         match parseStrBody r with
         | some (s, r2) => some (.jstr s, r2)
         | none => none
       else if c = 't' then
         match r with
         | 'r' :: 'u' :: 'e' :: r2 => some (.jbool true, r2)
         | _ => none
       else if c = 'f' then
         match r with
         | 'a' :: 'l' :: 's' :: 'e' :: r2 => some (.jbool false, r2)
         | _ => none
       else if c = 'n' then
         match r with
         | 'u' :: 'l' :: 'l' :: r2 => some (.jnull, r2)
         | _ => none
       else parseNum (c :: r))
  | f + 1, .items, cs => do
      let (v, r) ← parseJ f .val cs
      match skipWs r with
      | ',' :: r2 =>
          match parseJ f .items (skipWs r2) with
          | some (.jarr vs, r3) => some (.jarr (v :: vs), r3)
          | _ => none
      | ']' :: r2 => some (.jarr [v], r2)
      | _ => none
  | f + 1, .fields, cs =>
    match cs with
    | '"' :: r => do
        let (k, r1) ← parseStrBody r
        match skipWs r1 with
        | ':' :: r2 => do
            let (v, r3) ← parseJ f .val (skipWs r2)
            match skipWs r3 with
            | ',' :: r4 =>
                match parseJ f .fields (skipWs r4) with
                | some (.jobj fs, r5) => some (.jobj ((k, v) :: fs), r5)
                | _ => none
            | '\x7d' :: r4 => some (.jobj [(k, v)], r4)
            | _ => none
        | _ => none
    | _ => none

/-- `json.load`: parse one value, demand only whitespace after it. -/
def jsonParse (s : String) : Option JVal :=
  match parseJ (2 * s.length + 4) .val s.data with
  | some (v, rest) => if skipWs rest = [] then some v else none
  | none => none

/-! ## Chatbot data -/

def FACTS : List (String × String) :=
  [("python", "Python is a popular programming language known for readability and versatility."),
   ("openai", "OpenAI researches and builds safe, useful AI systems."),
   ("manila", "Manila is the capital of the Philippines."),
   ("planet", "There are eight planets in our Solar System.")]

def JOKES : List String :=
  ["Why did the developer go broke? Because they used up all their cache.",
   "I would tell you a UDP joke, but you might not get it.",
   "Debugging: being the detective in a crime movie where you are also the murderer."]

def emojiHappy : String := "🙂"
def emojiSad : String := "🙁"
def emojiWave : String := "👋"
def emojiBot : String := "🤖"

/-- `FACTS` iterated in insertion order; first key contained in `low` wins. -/
def factAnswer (low : String) : Option String :=
  (FACTS.find? (fun kv => strContains low kv.1)).map (fun kv => kv.2)

/-! ## Memory as a JSON value

`self.memory` starts as `{"name": None, "history": []}` but `load` replaces
it by an arbitrary JSON value, so the operations below take any `JVal` and
raise (as the Python does) where a non-dict shows up. -/

def optJ : Option String → JVal
  | none => .jnull
  | some s => .jstr s

/-- The memory record `{"name": ..., "history": [...]}`. -/
def mkRecord (nm : Option String) (h : List String) : JVal :=
  .jobj [("name", optJ nm), ("history", .jarr (h.map JVal.jstr))]

/-- First binding of a key. -/
def lookupF : List (String × JVal) → String → Option JVal
  | [], _ => none
  | (k', v) :: fs, k => if k' = k then some v else lookupF fs k

/-- `self.memory.get(k)`: `None` when the key is absent, `AttributeError`
when the memory is not a dict. -/
def jget (v : JVal) (k : String) : Except String JVal :=
  match v with
  | .jobj fs => .ok ((lookupF fs k).getD .jnull)
  | _ => .error "AttributeError: no attribute get"

/-- Dict item assignment: replace in place, or append a new key. -/
def setF : List (String × JVal) → String → JVal → List (String × JVal)
  | [], k, w => [(k, w)]
  | (k', v) :: fs, k, w =>
      if k' = k then (k, w) :: fs else (k', v) :: setF fs k w

/-- `self.memory[k] = w`: `TypeError` when the memory is not a dict. -/
def jset (v : JVal) (k : String) (w : JVal) : Except String JVal :=
  match v with
  | .jobj fs => .ok (.jobj (setF fs k w))
  | _ => .error "TypeError: object does not support item assignment"

/-- Python truthiness of a JSON-like value. -/
def truthy : JVal → Bool
  | .jnull => false
  | .jbool b => b
  | .jnum q _ => q ≠ 0
  | .jstr s => s ≠ ""
  | .jarr xs => !xs.isEmpty
  | .jobj fs => !fs.isEmpty

mutual

/-- Python `repr` of a loaded JSON value (quote-escaping inside reprs of
strings is simplified; no claim reaches it). -/
def jvalRepr : JVal → String
  | .jnull => "None"
  | .jbool true => "True"
  | .jbool false => "False"
  | .jnum q isFl => ⟨printNum q isFl⟩
  | .jstr s => "'" ++ s ++ "'"
  | .jarr xs => "[" ++ reprSeq xs ++ "]"
  | .jobj fs => "\x7b" ++ reprFieldsJ fs ++ "\x7d"

def reprSeq : List JVal → String
  | [] => ""
  | [x] => jvalRepr x
  | x :: y :: xs => jvalRepr x ++ ", " ++ reprSeq (y :: xs)

def reprFieldsJ : List (String × JVal) → String
  | [] => ""
  | [(k, v)] => "'" ++ k ++ "': " ++ jvalRepr v
  | (k, v) :: g :: fs => "'" ++ k ++ "': " ++ jvalRepr v ++ ", " ++ reprFieldsJ (g :: fs)

end

/-- Python `str()` as used by f-string interpolation. -/
def jvalStr : JVal → String
  | .jstr s => s
  | v => jvalRepr v

/-- `str(val)` for an `eval_expr` result interpolated into the reply. -/
def pyStrV : Value → String
  | .vint n => toString n
  | .vfloat q => ⟨printNum q true⟩
  | .vfn f => "<built-in function " ++ f ++ ">"

/-! ## Memory store operations -/

/-- `Chatbot.save`: write the serialized memory, return the confirmation. -/
def saveOp (mem : JVal) (fs : String → Option String) (path : String) :
    String × (String → Option String) :=
  ("Saved conversation to " ++ path,
   fun p => if p = path then some (jsonPrint mem) else fs p)

/-- `Chatbot.load`: `self.memory = json.load(f)`.  A missing file or
unparseable contents raise before the assignment, leaving the memory as it
was; on success the parsed value replaces the memory wholesale, with no
validation of its shape. -/
def loadOp (fs : String → Option String) (path : String) (mem : JVal) :
    Except String String × JVal :=
  match fs path with
  | none => (.error ("No such file or directory: " ++ path), mem)
  | some content =>
      match jsonParse content with
      | none => (.error "Expecting value", mem)
      | some v => (.ok ("Loaded conversation from " ++ path), v)

/-- `Chatbot.reset`: keep `memory.get("name")`, empty the history. -/
def resetOp (mem : JVal) : Except String (String × JVal) :=
  match jget mem "name" with
  | .ok nm => .ok ("Okay, I cleared the chat history but kept your name.",
                   .jobj [("name", nm), ("history", .jarr [])])
  | .error e => .error e

/-! ## Response rules -/

/-- `' ' + name if name else ''` of the greeting reply. -/
def greetSfx (nameV : JVal) : Except String String :=
  if truthy nameV then
    match nameV with
    | .jstr n => .ok (" " ++ n)
    | _ => .error "TypeError: can only concatenate str"
  else .ok ""

def sadReply (nameV : JVal) : String :=
  "Sorry you're feeling that way" ++ (if truthy nameV then "," else "") ++ " "
    ++ (if truthy nameV then jvalStr nameV else "")
    ++ ". I'm here to listen. " ++ emojiSad

def gladReply (nameV : JVal) : String :=
  "Love to hear that" ++ (if truthy nameV then "," else "") ++ " "
    ++ (if truthy nameV then jvalStr nameV else "")
    ++ "! " ++ emojiHappy

def fallbackReply : String :=
  "I didn't quite get that. Try /help or say 'joke', 'time', or 'calc: 2*(3+4)'."

/-- `Chatbot.respond`.  The wall clock of the time rule and the random
choice of the joke rule are inputs of the model (`now`, `ji`). -/
def respond (S : MathSem) (now : String) (ji : Nat) (text : String) (mem : JVal) :
    Except String (String × JVal) :=
  let t := pyStrip text
  if t = "" then .ok ("Say something and I'll reply!", mem)
  else
    match findName t with
    | some raw =>
        let nm := pyTitle (pyStrip raw)
        match jset mem "name" (.jstr nm) with
        | .ok m2 => .ok ("Nice to meet you, " ++ nm ++ "! " ++ emojiWave, m2)
        | .error e => .error e
    | none =>
      let low := pyLower t
      match jget mem "name" with
      | .error e => .error e
      | .ok nameV =>
        if anyContains low ["hello", "hi", "hey"] then
          match greetSfx nameV with
          | .ok sfx =>
              .ok ("Hey" ++ sfx ++ "! I'm " ++ emojiBot ++ " — ask me stuff or type /help.", mem)
          | .error e => .error e
        else if anyContains low ["thank", "thanks", "ty"] then
          .ok ("You're welcome!", mem)
        else if anyContains low ["bye", "goodbye", "quit", "exit"] then
          .ok ("Bye! Type /quit to leave the program.", mem)
        else if strContains low "time" || strContains low "date" then
          .ok ("It's " ++ now ++ ".", mem)
        else if strContains low "joke" then
          .ok (JOKES.getD (ji % JOKES.length) "", mem)
        else if strStarts low "calc:" || strStarts low "calc " then
          let expr := if strHasChar t ':' then afterChar ':' t else afterChar ' ' t
          match eval_expr S expr with
          | .ok v => .ok (pyStrip expr ++ " = " ++ pyStrV v, mem)
          | .error e => .ok ("I couldn't compute that: " ++ e, mem)
        else
          match factAnswer low with
          | some ans => .ok (ans, mem)
          | none =>
            if anyContains low ["sad", "down", "tired", "stressed"] then
              .ok (sadReply nameV, mem)
            else if anyContains low ["great", "awesome", "happy", "good"] then
              .ok (gladReply nameV, mem)
            else .ok (fallbackReply, mem)

/-- The greeting suffix `' ' + name if name else ''` on a proper record. -/
def nameSfx : Option String → String
  | none => ""
  | some n => if n = "" then "" else " " ++ n

/-- Is the value a proper two-field memory record? -/
def isRecordJ : JVal → Bool
  | .jobj [("name", n), ("history", .jarr hs)] =>
      (match n with
       | .jnull => true
       | .jstr _ => true
       | _ => false) &&
      hs.all (fun h => match h with | .jstr _ => true | _ => false)
  | _ => false

/-! ## Helper lemmas -/

theorem jget_mkRecord (nm : Option String) (h : List String) :
    jget (mkRecord nm h) "name" = .ok (optJ nm) := rfl

theorem jset_mkRecord (nm : Option String) (h : List String) (n : String) :
    jset (mkRecord nm h) "name" (.jstr n) = .ok (mkRecord (some n) h) := rfl

theorem greetSfx_optJ (nm : Option String) :
    greetSfx (optJ nm) = .ok (nameSfx nm) := by
  cases nm with
  | none => rfl
  | some n =>
      by_cases hn : n = "" <;> simp [greetSfx, optJ, truthy, nameSfx, hn]

/-- If a name is one of the twelve function names, `ALLOWED_NAMES` maps it
to the corresponding math function. -/
theorem lookupName_fun (f : String) (hf : funcNames.contains f = true) :
    lookupName f = some (.nfun f) := by
  have hf' : f ∈ funcNames := by
    simpa using hf
  fin_cases hf' <;> rfl

/-- On expressions built only from allow-listed tokens, the code's
tree-walk agrees with the spec's reference evaluation. -/
theorem core_eq_spec (S : MathSem) :
    (t : PExpr) → allowedTree t = true → evalCore S t = specCore S t
  | .num _, _ => rfl
  | .binOp k l r, h => by
      have h' := h
      simp only [allowedTree, Bool.and_eq_true] at h'
      obtain ⟨⟨hk, hl⟩, hr⟩ := h'
      have ihl := core_eq_spec S l hl
      have ihr := core_eq_spec S r hr
      cases hkk : allowedBin k with
      | none => rw [hkk] at hk; simp at hk
      | some f => simp [evalCore, specCore, hkk, ihl, ihr]
  | .unaryOp k e, h => by
      have h' := h
      simp only [allowedTree, Bool.and_eq_true] at h'
      obtain ⟨hk, he⟩ := h'
      have ihe := core_eq_spec S e he
      cases hkk : allowedUn k with
      | none => rw [hkk] at hk; simp at hk
      | some f => simp [evalCore, specCore, hkk, ihe]
  | .call (.name f) (.argCons a .argNil) .kwNil, h => by
      have h' := h
      simp only [allowedTree, Bool.and_eq_true] at h'
      obtain ⟨hf, ha⟩ := h'
      have iha := core_eq_spec S a ha
      have hlk := lookupName_fun f hf
      simp only [evalCore, specCore, hlk, hf, iha]
      cases hsa : specCore S a with
      | error e => rfl
      | ok vs =>
          simp only [bind, Except.bind]
          cases hv : one vs with
          | error e => rfl
          | ok v => simp [applyEntry]
  | .name c, h => by
      have hc : c ∈ constNames := by simpa [allowedTree] using h
      simp [evalCore, specCore, lookupName, hc]

theorem evalNode_eq_specEval (S : MathSem) (t : PExpr)
    (h : allowedTree t = true) : evalNode S t = specEval S t := by
  unfold evalNode specEval
  rw [core_eq_spec S t h]

/-! ## Claim theorems -/

/-- C1 (amended): every AST node whose top-level shape is not one of the
allow-listed ones — a non-numeric constant, a binary or unary node with an
operator outside `ALLOWED_OPS`, a call whose callee is not an allow-listed
name, an identifier outside `ALLOWED_NAMES`, attribute access, containers,
comparisons, conditionals, lambdas — reaches the rejection branch
`raise ValueError("Unsupported expression")`, under any interpretation of
the math functions.  (The claim's further assertion that keyword arguments
also cause failure is refuted by `C1_counterexample`: keywords in a call to
an allow-listed function are silently discarded, never evaluated.) -/
theorem C1_nonallowed_rejected (S : MathSem) (t : PExpr)
    (hp : isPyShape t = true)
    (h : topShapeAllowed t = false) : evalNode S t = .error unsupportedMsg := by
  cases t with
  | num v => simp [topShapeAllowed] at h
  | strLit s => rfl
  | boolLit b => rfl
  | noneLit => rfl
  | binOp k l r =>
      cases hk : allowedBin k with
      | none => simp [evalNode, evalCore, hk]
      | some f => simp [topShapeAllowed, hk] at h
  | unaryOp k e =>
      cases hk : allowedUn k with
      | none => simp [evalNode, evalCore, hk]
      | some f => simp [topShapeAllowed, hk] at h
  | call fn args kws =>
      cases fn with
      | name id =>
          cases hl : lookupName id with
          | none => simp [evalNode, evalCore, hl]
          | some entry => simp [topShapeAllowed, hl] at h
      | num v => rfl
      | strLit s => rfl
      | boolLit b => rfl
      | noneLit => rfl
      | binOp k l r => rfl
      | unaryOp k e => rfl
      | call f a k => rfl
      | attrGet e f => rfl
      | listLit xs => rfl
      | tupleLit xs => rfl
      | compareE l r => rfl
      | ifExp c t e => rfl
      | lambdaE => rfl
      | argNil => rfl
      | argCons hh tt => rfl
      | kwNil => rfl
      | kwCons k v tl => rfl
  | name id =>
      cases hl : lookupName id with
      | none => simp [evalNode, evalCore, hl]
      | some entry => simp [topShapeAllowed, hl] at h
  | attrGet e f => rfl
  | listLit xs => rfl
  | tupleLit xs => rfl
  | compareE l r => rfl
  | ifExp c t e => rfl
  | lambdaE => rfl
  | argNil => simp [isPyShape] at hp
  | argCons hh tt => simp [isPyShape] at hp
  | kwNil => simp [isPyShape] at hp
  | kwCons k v tl => simp [isPyShape] at hp

/-- Witness for C1: attribute access is rejected. -/
theorem C1_nonallowed_rejected_witness :
    isPyShape (PExpr.attrGet (PExpr.num (Value.vint 1)) "real") = true ∧
    topShapeAllowed (PExpr.attrGet (PExpr.num (Value.vint 1)) "real") = false ∧
    evalNode SModel (PExpr.attrGet (PExpr.num (Value.vint 1)) "real")
      = .error unsupportedMsg :=
  ⟨rfl, rfl,
   C1_nonallowed_rejected SModel (PExpr.attrGet (PExpr.num (Value.vint 1)) "real") rfl rfl⟩

/-- Counterexample to C1 as stated: `sqrt(16, x=1)` contains a keyword
argument — a construct outside the allow-lists — yet `eval_expr` does not
fail: the parse carries the keyword, and evaluation discards it and
returns `4.0`. -/
theorem C1_counterexample :
    parseExprStr "sqrt(16, x=1)" =
      .ok (PExpr.call (PExpr.name "sqrt")
            (PExpr.argCons (PExpr.num (Value.vint 16)) PExpr.argNil)
            (PExpr.kwCons "x" (PExpr.num (Value.vint 1)) PExpr.kwNil)) ∧
    eval_expr SModel "sqrt(16, x=1)" = .ok (Value.vfloat 4) :=
  ⟨rfl, rfl⟩

/-- C2: on every expression built only from allow-listed tokens, the code's
evaluation agrees with the spec's reference evaluation (under any common
interpretation of the math functions and constants), and the three
precedence examples evaluate as the claim states: `2*(3+4)` is `14`,
`sqrt(16)` is `4.0`, `2**10` is `1024`. -/
theorem C2_reference_agreement :
    (∀ (S : MathSem) (t : PExpr), allowedTree t = true →
        evalNode S t = specEval S t) ∧
    eval_expr SModel "2*(3+4)" = .ok (Value.vint 14) ∧
    eval_expr SModel "sqrt(16)" = .ok (Value.vfloat 4) ∧
    eval_expr SModel "2**10" = .ok (Value.vint 1024) :=
  ⟨fun S t h => evalNode_eq_specEval S t h, rfl, rfl, rfl⟩

/-- Witness for C2 at the tree of `2*(3+4)`. -/
theorem C2_reference_agreement_witness :
    allowedTree (PExpr.binOp .mult (PExpr.num (Value.vint 2))
      (PExpr.binOp .add (PExpr.num (Value.vint 3)) (PExpr.num (Value.vint 4)))) = true ∧
    evalNode SModel (PExpr.binOp .mult (PExpr.num (Value.vint 2))
      (PExpr.binOp .add (PExpr.num (Value.vint 3)) (PExpr.num (Value.vint 4)))) =
    specEval SModel (PExpr.binOp .mult (PExpr.num (Value.vint 2))
      (PExpr.binOp .add (PExpr.num (Value.vint 3)) (PExpr.num (Value.vint 4)))) :=
  ⟨rfl, C2_reference_agreement.1 SModel _ rfl⟩

/-- C3: division by zero and modulo by zero are `ZeroDivisionError`s, not
infinities or NaNs: `eval_expr` propagates them as failures. -/
theorem C3_zero_division :
    eval_expr SModel "1/0" = .error "division by zero" ∧
    eval_expr SModel "1%0" = .error "integer division or modulo by zero" :=
  ⟨rfl, rfl⟩

/-! ## Character-level lemmas for the calculator trigger -/

theorem charToNatOfNat (n : Nat) (h : n.isValidChar) : (Char.ofNat n).toNat = n := by
  unfold Char.ofNat
  rw [dif_pos h]
  rfl

/-- A character whose lower-casing is a non-letter `d` is `d` itself. -/
theorem pyLowerChar_fix (c d : Char) (hd : d.toNat < 65 ∨ 122 < d.toNat)
    (h : pyLowerChar c = d) : c = d := by
  unfold pyLowerChar at h
  split at h
  · rename_i hc
    simp only [Bool.and_eq_true, decide_eq_true_eq] at hc
    obtain ⟨h1, h2⟩ := hc
    have h1' : (65:Nat) ≤ c.toNat := h1
    have h2' : c.toNat ≤ (90:Nat) := h2
    have hv : (c.toNat + 32).isValidChar := by
      left
      omega
    have h3 := congrArg Char.toNat h
    rw [charToNatOfNat _ hv] at h3
    omega
  · exact h

/-- If the lower-cased text begins with `"calc:"`, the text has a colon and
everything after its first colon is exactly the remainder after the
five-character prefix. -/
theorem calcColon_split (t : String)
    (h : listPrefixEq "calc:".data (pyLower t).data = true) :
    strHasChar t ':' = true ∧ afterChar ':' t = ⟨t.data.drop 5⟩ := by
  obtain ⟨a, b, c, d, e, rest, ht⟩ :
      ∃ a b c d e rest, t.data = a :: b :: c :: d :: e :: rest := by
    have hd : (pyLower t).data = t.data.map pyLowerChar := rfl
    rw [hd] at h
    match hx : t.data with
    | [] => rw [hx] at h; simp [listPrefixEq] at h
    | [a] => rw [hx] at h; simp [listPrefixEq] at h
    | [a, b] => rw [hx] at h; simp [listPrefixEq] at h
    | [a, b, c] => rw [hx] at h; simp [listPrefixEq] at h
    | [a, b, c, d] => rw [hx] at h; simp [listPrefixEq] at h
    | a :: b :: c :: d :: e :: rest => exact ⟨a, b, c, d, e, rest, rfl⟩
  have hd : (pyLower t).data = t.data.map pyLowerChar := rfl
  rw [hd, ht] at h
  simp only [List.map, listPrefixEq, Bool.and_eq_true, decide_eq_true_eq] at h
  obtain ⟨ha, hb, hc, hdd, he, -⟩ := h
  have ea : a ≠ ':' := by
    intro hx
    rw [hx] at ha
    exact absurd ha.symm (by decide)
  have eb : b ≠ ':' := by
    intro hx
    rw [hx] at hb
    exact absurd hb.symm (by decide)
  have ec : c ≠ ':' := by
    intro hx
    rw [hx] at hc
    exact absurd hc.symm (by decide)
  have ed : d ≠ ':' := by
    intro hx
    rw [hx] at hdd
    exact absurd hdd.symm (by decide)
  have ee : e = ':' := pyLowerChar_fix e ':' (by left; decide) he.symm
  have fa : (':' == a) = false := beq_eq_false_iff_ne.mpr (Ne.symm ea)
  have fb : (':' == b) = false := beq_eq_false_iff_ne.mpr (Ne.symm eb)
  have fc : (':' == c) = false := beq_eq_false_iff_ne.mpr (Ne.symm ec)
  have fd : (':' == d) = false := beq_eq_false_iff_ne.mpr (Ne.symm ed)
  constructor
  · show (t.data.contains ':') = true
    rw [ht, ee]
    simp only [List.contains, List.elem, fa, fb, fc, fd, beq_self_eq_true]
  · show (⟨afterChar.afterCharL ':' t.data⟩ : String) = ⟨t.data.drop 5⟩
    rw [ht, ee]
    simp only [afterChar.afterCharL, if_neg ea, if_neg eb, if_neg ec, if_neg ed, if_pos rfl]
    rfl

/-- If the lower-cased text begins with `"calc "` and the remainder after
the five-character prefix has no colon, the computed sub-expression is
exactly that remainder. -/
theorem calcSpace_split (t : String)
    (h : listPrefixEq "calc ".data (pyLower t).data = true)
    (hnc : (⟨t.data.drop 5⟩ : String).data.contains ':' = false) :
    strHasChar t ':' = false ∧ afterChar ' ' t = ⟨t.data.drop 5⟩ := by
  obtain ⟨a, b, c, d, e, rest, ht⟩ :
      ∃ a b c d e rest, t.data = a :: b :: c :: d :: e :: rest := by
    have hd : (pyLower t).data = t.data.map pyLowerChar := rfl
    rw [hd] at h
    match hx : t.data with
    | [] => rw [hx] at h; simp [listPrefixEq] at h
    | [a] => rw [hx] at h; simp [listPrefixEq] at h
    | [a, b] => rw [hx] at h; simp [listPrefixEq] at h
    | [a, b, c] => rw [hx] at h; simp [listPrefixEq] at h
    | [a, b, c, d] => rw [hx] at h; simp [listPrefixEq] at h
    | a :: b :: c :: d :: e :: rest => exact ⟨a, b, c, d, e, rest, rfl⟩
  have hd : (pyLower t).data = t.data.map pyLowerChar := rfl
  rw [hd, ht] at h
  simp only [List.map, listPrefixEq, Bool.and_eq_true, decide_eq_true_eq] at h
  obtain ⟨ha, hb, hc, hdd, he, -⟩ := h
  have hrest : rest.contains ':' = false := by
    have : (⟨t.data.drop 5⟩ : String).data = rest := by rw [ht]; rfl
    rw [this] at hnc
    exact hnc
  have ea : a ≠ ':' ∧ a ≠ ' ' := by
    constructor <;> intro hx <;> rw [hx] at ha <;> exact absurd ha.symm (by decide)
  have eb : b ≠ ':' ∧ b ≠ ' ' := by
    constructor <;> intro hx <;> rw [hx] at hb <;> exact absurd hb.symm (by decide)
  have ec : c ≠ ':' ∧ c ≠ ' ' := by
    constructor <;> intro hx <;> rw [hx] at hc <;> exact absurd hc.symm (by decide)
  have ed : d ≠ ':' ∧ d ≠ ' ' := by
    constructor <;> intro hx <;> rw [hx] at hdd <;> exact absurd hdd.symm (by decide)
  have ee : e = ' ' := pyLowerChar_fix e ' ' (by left; decide) he.symm
  have fa : (':' == a) = false := beq_eq_false_iff_ne.mpr (Ne.symm ea.1)
  have fb : (':' == b) = false := beq_eq_false_iff_ne.mpr (Ne.symm eb.1)
  have fc : (':' == c) = false := beq_eq_false_iff_ne.mpr (Ne.symm ec.1)
  have fd : (':' == d) = false := beq_eq_false_iff_ne.mpr (Ne.symm ed.1)
  constructor
  · show (t.data.contains ':') = false
    rw [ht, ee]
    simp only [List.contains, List.elem, fa, fb, fc, fd]
    have fe : (':' == ' ') = false := by decide
    simp only [fe]
    exact hrest
  · show (⟨afterChar.afterCharL ' ' t.data⟩ : String) = ⟨t.data.drop 5⟩
    rw [ht, ee]
    simp only [afterChar.afterCharL, if_neg ea.2, if_neg eb.2, if_neg ec.2, if_neg ed.2,
      if_pos rfl]
    rfl

/-- C4 (amended): when the stripped text matches no earlier rule and its
lower-cased form begins with `"calc:"` or `"calc "`, the reply is computed
from the sub-expression after the *first colon of the whole text* when the
text contains a colon, and after the first space otherwise — on evaluator
success the reply is `"<expr> = <value>"` for that sub-expression, on
failure a short apology containing the error.  The sub-expression equals
the remainder after the five-character prefix exactly when that remainder
contains no colon (for a `"calc:"` trigger this always holds of the split;
for a `"calc "` trigger a colon in the remainder shifts the split,
see `C4_counterexample`). -/
theorem C4_calc_branch (S : MathSem) (now : String) (ji : Nat) (text : String)
    (nm : Option String) (hist : List String)
    (h1 : ¬ pyStrip text = "")
    (h2 : findName (pyStrip text) = none)
    (hg : anyContains (pyLower (pyStrip text)) ["hello", "hi", "hey"] = false)
    (hth : anyContains (pyLower (pyStrip text)) ["thank", "thanks", "ty"] = false)
    (hb : anyContains (pyLower (pyStrip text)) ["bye", "goodbye", "quit", "exit"] = false)
    (htd : (strContains (pyLower (pyStrip text)) "time"
            || strContains (pyLower (pyStrip text)) "date") = false)
    (hj : strContains (pyLower (pyStrip text)) "joke" = false)
    (hc : (strStarts (pyLower (pyStrip text)) "calc:"
           || strStarts (pyLower (pyStrip text)) "calc ") = true) :
    respond S now ji text (mkRecord nm hist) =
      .ok ((match eval_expr S (if strHasChar (pyStrip text) ':'
                               then afterChar ':' (pyStrip text)
                               else afterChar ' ' (pyStrip text)) with
            | .ok v => pyStrip (if strHasChar (pyStrip text) ':'
                                then afterChar ':' (pyStrip text)
                                else afterChar ' ' (pyStrip text)) ++ " = " ++ pyStrV v
            | .error e => "I couldn't compute that: " ++ e),
           mkRecord nm hist) ∧
    ((⟨(pyStrip text).data.drop 5⟩ : String).data.contains ':' = false →
      (if strHasChar (pyStrip text) ':'
       then afterChar ':' (pyStrip text)
       else afterChar ' ' (pyStrip text)) = ⟨(pyStrip text).data.drop 5⟩) := by
  constructor
  · simp only [respond, h1, if_false, h2, jget_mkRecord, hg, hth, hb, htd, hj, hc,
      if_true, Bool.false_eq_true]
    cases he : eval_expr S (if strHasChar (pyStrip text) ':'
        then afterChar ':' (pyStrip text) else afterChar ' ' (pyStrip text)) with
    | ok v => simp
    | error e => simp
  · intro hnc
    rcases Bool.or_eq_true_iff.mp hc with hcc | hcs
    · obtain ⟨hhas, heq⟩ := calcColon_split (pyStrip text) hcc
      rw [if_pos hhas, heq]
    · by_cases hhas : strHasChar (pyStrip text) ':' = true
      · obtain ⟨hno, -⟩ := calcSpace_split (pyStrip text) hcs hnc
        rw [hno] at hhas
        exact absurd hhas (by simp)
      · obtain ⟨-, heq⟩ := calcSpace_split (pyStrip text) hcs hnc
        simp only [Bool.not_eq_true] at hhas
        rw [if_neg (by simp [hhas]), heq]

/-- Witness for C4: `"calc: 2*(3+4)"` on a fresh record replies
`"2*(3+4) = 14"`. -/
theorem C4_calc_branch_witness :
    respond SModel "2026-01-01 00:00" 0 "calc: 2*(3+4)" (mkRecord none []) =
      .ok ("2*(3+4) = 14", mkRecord none []) := by
  have h := C4_calc_branch SModel "2026-01-01 00:00" 0 "calc: 2*(3+4)" none []
    (by decide) (by decide) (by decide) (by decide) (by decide) (by decide)
    (by decide) (by decide)
  exact h.1

/-- Counterexample to C4 as stated: for the input `"calc 1:2"` the remainder
after the prefix is `"1:2"`, whose evaluation fails — so the claim demands
an apology — yet the code splits the text at its first colon, evaluates
`"2"`, and replies `"2 = 2"`. -/
theorem C4_counterexample :
    (⟨(pyStrip "calc 1:2").data.drop 5⟩ : String) = "1:2" ∧
    eval_expr SModel "1:2" = .error synErr ∧
    respond SModel "2026-01-01 00:00" 0 "calc 1:2" (mkRecord none []) =
      .ok ("2 = 2", mkRecord none []) :=
  ⟨rfl, rfl, rfl⟩

/-- C5 (amended): `load` fails exactly when the file is missing or its
contents are not parseable JSON, and on failure the in-memory record is
left unchanged; on success it replaces the whole in-memory record with the
parsed JSON value, whatever its shape — there is no validation that the
contents form a two-field `{name, history}` record (see
`C5_counterexample`). -/
theorem C5_load_behavior (fs : String → Option String) (path : String) (mem : JVal) :
    (fs path = none →
      loadOp fs path mem = (.error ("No such file or directory: " ++ path), mem)) ∧
    (∀ content, fs path = some content → jsonParse content = none →
      loadOp fs path mem = (.error "Expecting value", mem)) ∧
    (∀ content v, fs path = some content → jsonParse content = some v →
      loadOp fs path mem = (.ok ("Loaded conversation from " ++ path), v)) := by
  refine ⟨fun h => ?_, fun content h hp => ?_, fun content v h hp => ?_⟩
  · simp [loadOp, h]
  · simp [loadOp, h, hp]
  · simp [loadOp, h, hp]

/-- Witness for C5: a file holding `"notjson"` fails to load and leaves the
memory unchanged. -/
theorem C5_load_behavior_witness :
    loadOp (fun p => if p = "mem.json" then some "notjson" else none) "mem.json"
      (mkRecord none []) = (.error "Expecting value", mkRecord none []) :=
  (C5_load_behavior (fun p => if p = "mem.json" then some "notjson" else none)
    "mem.json" (mkRecord none [])).2.1 "notjson" rfl rfl

/-- Counterexample to C5 as stated: a file holding the valid JSON `42` —
not a serialized memory record — loads successfully and replaces the
in-memory record by the number `42`. -/
theorem C5_counterexample :
    loadOp (fun p => if p = "mem.json" then some "42" else none) "mem.json"
      (mkRecord none [])
      = (.ok "Loaded conversation from mem.json", JVal.jnum 42 false) ∧
    isRecordJ (JVal.jnum 42 false) = false :=
  ⟨rfl, rfl⟩

/-- C7: `reset` keeps the name and clears the history, and name assignment
(the name-declaration branch of `respond`) keeps the history: no operation
but `reset` clears it. -/
theorem C7_reset_frame (nm : Option String) (hist : List String) :
    resetOp (mkRecord nm hist) =
      .ok ("Okay, I cleared the chat history but kept your name.", mkRecord nm []) ∧
    (∀ (S : MathSem) (now : String) (ji : Nat) (text raw : String),
      ¬ pyStrip text = "" → findName (pyStrip text) = some raw →
      respond S now ji text (mkRecord nm hist) =
        .ok ("Nice to meet you, " ++ pyTitle (pyStrip raw) ++ "! " ++ emojiWave,
             mkRecord (some (pyTitle (pyStrip raw))) hist)) := by
  constructor
  · cases nm <;> rfl
  · intro S now ji text raw h1 h2
    simp only [respond, h1, if_false, h2, jset_mkRecord]

/-- Witness for C7: resetting `{name: "Bob", history: ["x"]}` keeps the
name, and telling the bot a new name keeps the history. -/
theorem C7_reset_frame_witness :
    resetOp (mkRecord (some "Bob") ["x"]) =
      .ok ("Okay, I cleared the chat history but kept your name.",
           mkRecord (some "Bob") []) ∧
    respond SModel "2026-01-01 00:00" 0 "my name is Ada" (mkRecord (some "Bob") ["x"]) =
      .ok ("Nice to meet you, Ada! " ++ emojiWave, mkRecord (some "Ada") ["x"]) :=
  ⟨(C7_reset_frame (some "Bob") ["x"]).1,
   (C7_reset_frame (some "Bob") ["x"]).2 SModel "2026-01-01 00:00" 0
     "my name is Ada" "Ada" (by decide) (by decide)⟩

/-- C8: `respond "my name is Ada"` on a fresh record stores the name "Ada"
and replies with a greeting containing "Ada"; a subsequent `"hello"` replies
with a greeting personalized with "Ada". -/
theorem C8_name_roundtrip :
    respond SModel "2026-01-01 00:00" 0 "my name is Ada" (mkRecord none []) =
      .ok ("Nice to meet you, Ada! " ++ emojiWave, mkRecord (some "Ada") []) ∧
    strContains ("Nice to meet you, Ada! " ++ emojiWave) "Ada" = true ∧
    respond SModel "2026-01-01 00:00" 0 "hello" (mkRecord (some "Ada") []) =
      .ok ("Hey Ada! I'm " ++ emojiBot ++ " — ask me stuff or type /help.",
           mkRecord (some "Ada") []) ∧
    strContains ("Hey Ada! I'm " ++ emojiBot ++ " — ask me stuff or type /help.")
      "Ada" = true :=
  ⟨rfl, by decide, rfl, by decide⟩

/-- C9: on a proper memory record, `respond` never fails — every input gets
some reply — and empty or whitespace-only input short-circuits with the
prompt to say something. -/
theorem C9_total (S : MathSem) (now : String) (ji : Nat) (text : String)
    (nm : Option String) (hist : List String) :
    (∃ r m, respond S now ji text (mkRecord nm hist) = .ok (r, m)) ∧
    (pyStrip text = "" →
      respond S now ji text (mkRecord nm hist) =
        .ok ("Say something and I'll reply!", mkRecord nm hist)) := by
  constructor
  · by_cases h0 : pyStrip text = ""
    · have heq : respond S now ji text (mkRecord nm hist) =
          .ok ("Say something and I'll reply!", mkRecord nm hist) := by
        simp [respond, h0]
      exact ⟨_, _, heq⟩
    · cases hf : findName (pyStrip text) with
      | some raw =>
          have heq : respond S now ji text (mkRecord nm hist) =
              .ok ("Nice to meet you, " ++ pyTitle (pyStrip raw) ++ "! " ++ emojiWave,
                   mkRecord (some (pyTitle (pyStrip raw))) hist) := by
            simp only [respond, h0, if_false, hf, jset_mkRecord]
          exact ⟨_, _, heq⟩
      | none =>
          simp only [respond, h0, if_false, hf, jget_mkRecord, greetSfx_optJ]
          split
          · exact ⟨_, _, rfl⟩
          · split
            · exact ⟨_, _, rfl⟩
            · split
              · exact ⟨_, _, rfl⟩
              · split
                · exact ⟨_, _, rfl⟩
                · split
                  · exact ⟨_, _, rfl⟩
                  · split
                    · split
                      · exact ⟨_, _, rfl⟩
                      · exact ⟨_, _, rfl⟩
                    · cases hfa : factAnswer (pyLower (pyStrip text)) with
                      | some ans =>
                          simp only [hfa]
                          exact ⟨_, _, rfl⟩
                      | none =>
                          simp only [hfa]
                          split
                          · exact ⟨_, _, rfl⟩
                          · split
                            · exact ⟨_, _, rfl⟩
                            · exact ⟨_, _, rfl⟩
  · intro h0
    simp [respond, h0]

/-- Witness for C9: whitespace-only input gets the fixed prompt. -/
theorem C9_total_witness :
    (∃ r m, respond SModel "2026-01-01 00:00" 0 "   " (mkRecord none []) = .ok (r, m)) ∧
    respond SModel "2026-01-01 00:00" 0 "   " (mkRecord none []) =
      .ok ("Say something and I'll reply!", mkRecord none []) :=
  ⟨(C9_total SModel "2026-01-01 00:00" 0 "   " none []).1,
   (C9_total SModel "2026-01-01 00:00" 0 "   " none []).2 (by decide)⟩

/-- C10: the greeting rule matches raw substrings of the lower-cased input:
any non-empty input that does not match the name pattern and whose
lower-cased form contains "hello", "hi" or "hey" anywhere — also inside
another word — gets the greeting reply, whatever other rule keywords the
input contains (the greeting check runs before the time, joke, calculator,
fact and sentiment rules). -/
theorem C10_greeting_substring (S : MathSem) (now : String) (ji : Nat)
    (text : String) (nm : Option String) (hist : List String)
    (h1 : ¬ pyStrip text = "")
    (h2 : findName (pyStrip text) = none)
    (h3 : anyContains (pyLower (pyStrip text)) ["hello", "hi", "hey"] = true) :
    respond S now ji text (mkRecord nm hist) =
      .ok ("Hey" ++ nameSfx nm ++ "! I'm " ++ emojiBot ++ " — ask me stuff or type /help.",
           mkRecord nm hist) := by
  simp only [respond, h1, if_false, h2, jget_mkRecord, h3, if_true, greetSfx_optJ]

/-- Witness for C10: "machine" contains "hi" inside a word and draws the
greeting reply. -/
theorem C10_greeting_substring_witness :
    respond SModel "2026-01-01 00:00" 0 "machine" (mkRecord none []) =
      .ok ("Hey" ++ nameSfx none ++ "! I'm " ++ emojiBot ++ " — ask me stuff or type /help.",
           mkRecord none []) :=
  C10_greeting_substring SModel "2026-01-01 00:00" 0 "machine" none []
    (by decide) (by decide) (by decide)

/-! ## Round-trip of the serialized memory record -/

theorem charOfNatToNat (c : Char) : Char.ofNat c.toNat = c := by
  have hv : c.toNat.isValidChar := c.valid
  have h1 := charToNatOfNat c.toNat hv
  have h2 : (Char.ofNat c.toNat).val.toBitVec = c.val.toBitVec := by
    apply BitVec.eq_of_toNat_eq
    exact h1
  cases hc : Char.ofNat c.toNat with
  | mk v hvv =>
      cases c with
      | mk w hww =>
          rw [hc] at h2
          simp only at h2
          congr 1
          cases v
          cases w
          simp only at h2
          rw [h2]

theorem hexVal_hexDig (n : Nat) (h : n < 16) :
    hexVal (escChar.hexDig n) = some n := by
  interval_cases n <;> rfl

/-- Unescaping inverts escaping one character at a time. -/
theorem parseStrBody_escChar (c : Char) (l : List Char) :
    parseStrBody (escChar c ++ l) = consStr c (parseStrBody l) := by
  by_cases h1 : c = '"'
  · subst h1
    show parseStrBody ('\\' :: '"' :: l) = _
    rw [parseStrBody.eq_def]
    simp
  by_cases h2 : c = '\\'
  · subst h2
    show parseStrBody ('\\' :: '\\' :: l) = _
    rw [parseStrBody.eq_def]
    simp
  by_cases h3 : c = '\x08'
  · subst h3
    show parseStrBody ('\\' :: 'b' :: l) = _
    rw [parseStrBody.eq_def]
    simp
  by_cases h4 : c = '\t'
  · subst h4
    show parseStrBody ('\\' :: 't' :: l) = _
    rw [parseStrBody.eq_def]
    simp
  by_cases h5 : c = '\n'
  · subst h5
    show parseStrBody ('\\' :: 'n' :: l) = _
    rw [parseStrBody.eq_def]
    simp
  by_cases h6 : c = '\x0c'
  · subst h6
    show parseStrBody ('\\' :: 'f' :: l) = _
    rw [parseStrBody.eq_def]
    simp
  by_cases h7 : c = '\r'
  · subst h7
    show parseStrBody ('\\' :: 'r' :: l) = _
    rw [parseStrBody.eq_def]
    simp
  by_cases h8 : c.toNat < 32
  · have he : escChar c =
        ['\\', 'u', '0', '0', escChar.hexDig (c.toNat / 16), escChar.hexDig (c.toNat % 16)] := by
      unfold escChar
      rw [if_neg h1, if_neg h2, if_neg h3, if_neg h4, if_neg h5, if_neg h6, if_neg h7,
        if_pos h8]
    rw [he]
    have hd1 : hexVal (escChar.hexDig (c.toNat / 16)) = some (c.toNat / 16) :=
      hexVal_hexDig _ (by omega)
    have hd2 : hexVal (escChar.hexDig (c.toNat % 16)) = some (c.toNat % 16) :=
      hexVal_hexDig _ (by omega)
    have hv0 : hexVal '0' = some 0 := rfl
    simp only [List.cons_append, List.nil_append]
    rw [parseStrBody.eq_def]
    have hn : ((0 * 16 + 0) * 16 + c.toNat / 16) * 16 + c.toNat % 16 = c.toNat := by
      omega
    simp [hd1, hd2, hv0, hn]
    rw [if_pos (by omega)]
    have hn2 : c.toNat / 16 * 16 + c.toNat % 16 = c.toNat := by omega
    rw [hn2, charOfNatToNat]
  · have he : escChar c = [c] := by
      unfold escChar
      rw [if_neg h1, if_neg h2, if_neg h3, if_neg h4, if_neg h5, if_neg h6, if_neg h7,
        if_neg h8]
    rw [he]
    simp only [List.cons_append, List.nil_append]
    rw [parseStrBody.eq_def]
    simp only [if_neg h1, if_neg h2, if_neg h8]

/-- Unescaping inverts escaping across a whole string body. -/
theorem parseStrBody_escList (cs : List Char) (rest : List Char) :
    parseStrBody (escList cs ++ '"' :: rest) = some (⟨cs⟩, rest) := by
  induction cs with
  | nil =>
      show parseStrBody ([] ++ '"' :: rest) = _
      simp only [List.nil_append]
      rw [parseStrBody.eq_def]
      simp
  | cons c cs ih =>
      show parseStrBody ((escChar c ++ escList cs) ++ '"' :: rest) = _
      rw [List.append_assoc, parseStrBody_escChar, ih]
      rfl

theorem skipWs_replicate (n : Nat) (l : List Char) :
    skipWs (List.replicate n ' ' ++ l) = skipWs l := by
  induction n with
  | zero => rfl
  | succ n ih => simpa [List.replicate, skipWs, jsonWs] using ih

theorem skipWs_nl (l : List Char) : skipWs ('\n' :: l) = skipWs l := by
  simp [skipWs, jsonWs]

theorem skipWs_nonws (c : Char) (l : List Char) (h : jsonWs c = false) :
    skipWs (c :: l) = c :: l := by
  simp [skipWs, h]

/-- Parsing a printed JSON string in value position. -/
theorem parseJ_str (f : Nat) (s : String) (rest : List Char) :
    parseJ (f + 1) .val ('"' :: (escList s.data ++ '"' :: rest)) =
      some (.jstr s, rest) := by
  simp [parseJ, skipWs, jsonWs, parseStrBody_escList]

/-- Parsing a printed `name` value (`null` or a string). -/
theorem parseJ_optJ (nm : Option String) (f : Nat) (rest : List Char) :
    parseJ (f + 1) .val (printJ 1 (optJ nm) ++ rest) = some (optJ nm, rest) := by
  cases nm with
  | none => simp [printJ, optJ, parseJ, skipWs, jsonWs]
  | some s =>
      have h := parseJ_str f s rest
      simpa [printJ, optJ, printStr] using h


/-- Parsing the items of a printed non-empty array of strings. -/
theorem parseJ_items (xs : List String) (x : String) (f : Nat) (rest : List Char) :
    parseJ (f + xs.length + 2) .items
      (printStr x ++ printItems 2 (xs.map .jstr) ++ '\n' :: List.replicate 2 ' ' ++ ']' :: rest)
      = some (.jarr ((x :: xs).map .jstr), rest) := by
  induction xs generalizing x f with
  | nil =>
      have hs := parseJ_str f x ('\n' :: (List.replicate 2 ' ' ++ ']' :: rest))
      rw [show f + List.length [] + 2 = (f + 1) + 1 from by simp]
      rw [parseJ.eq_def]
      simp only [printItems, printStr, List.map, List.cons_append, List.nil_append,
        List.append_assoc]
      rw [hs]
      have hw : skipWs ('\n' :: (List.replicate 2 ' ' ++ ']' :: rest)) = ']' :: rest := by
        rw [skipWs_nl, skipWs_replicate]
        exact skipWs_nonws _ _ (by decide)
      simp only [bind, Option.bind]
      rw [hw]
      rfl
  | cons y ys ih =>
      have hs := parseJ_str (f + ys.length + 1) x
        (',' :: ('\n' :: (List.replicate 4 ' ' ++ ('"' :: (escList y.data ++
          ('"' :: (printItems 2 (ys.map .jstr) ++
            ('\n' :: (List.replicate 2 ' ' ++ ']' :: rest)))))))))
      rw [show f + List.length (y :: ys) + 2 = (f + ys.length + 2) + 1 from by
        simp
        omega]
      rw [parseJ.eq_def]
      simp only [printItems, printJ, printStr, List.map, List.cons_append, List.nil_append,
        List.append_assoc, Nat.reduceMul] at hs ⊢
      rw [show f + ys.length + 2 = (f + ys.length + 1) + 1 from by omega]
      rw [hs]
      simp only [bind, Option.bind]
      rw [skipWs_nonws ',' _ (by decide)]
      have hstrip : skipWs ('\n' :: (List.replicate 4 ' ' ++ ('"' :: (escList y.data ++
          ('"' :: (printItems 2 (ys.map .jstr) ++
            ('\n' :: (List.replicate 2 ' ' ++ ']' :: rest)))))))) =
          '"' :: (escList y.data ++ ('"' :: (printItems 2 (ys.map .jstr) ++
            ('\n' :: (List.replicate 2 ' ' ++ ']' :: rest))))) := by
        rw [skipWs_nl, skipWs_replicate]
        exact skipWs_nonws _ _ (by decide)
      simp only [hstrip]
      have ih' := ih y f
      simp only [printItems, printJ, printStr, List.map, List.cons_append, List.nil_append,
        List.append_assoc, Nat.reduceMul] at ih'
      rw [show f + ys.length + 2 = f + ys.length + 1 + 1 from by omega] at ih'
      simp only [ih']

theorem skipWs_printOptJ (nm : Option String) (l : List Char) :
    skipWs (printJ 1 (optJ nm) ++ l) = printJ 1 (optJ nm) ++ l := by
  cases nm <;> simp [printJ, optJ, printStr, skipWs, jsonWs]

/-- Parsing a printed array of strings in value position. -/
theorem parseJ_arr (hist : List String) (f : Nat) (rest : List Char) :
    parseJ (f + hist.length + 3) .val (printJ 1 (.jarr (hist.map .jstr)) ++ rest)
      = some (.jarr (hist.map .jstr), rest) := by
  cases hist with
  | nil =>
      rw [show f + List.length [] + 3 = (f + 2) + 1 from by simp]
      rw [parseJ.eq_def]
      simp [printJ, skipWs, jsonWs]
  | cons x xs =>
      rw [show f + List.length (x :: xs) + 3 = (f + xs.length + 3) + 1 from by
        simp
        omega]
      rw [parseJ.eq_def]
      simp only [printJ, printStr, List.map, Nat.reduceMul, List.cons_append,
        List.nil_append, List.append_assoc]
      rw [skipWs_nonws '[' _ (by decide)]
      simp only [reduceIte, reduceCtorEq]
      have hstrip : skipWs ('\n' :: (List.replicate 4 ' ' ++ ('"' :: (escList x.data ++
          ('"' :: (printItems 2 (xs.map .jstr) ++
            ('\n' :: (List.replicate 2 ' ' ++ (']' :: rest))))))))) =
          '"' :: (escList x.data ++ ('"' :: (printItems 2 (xs.map .jstr) ++
            ('\n' :: (List.replicate 2 ' ' ++ (']' :: rest)))))) := by
        rw [skipWs_nl, skipWs_replicate]
        exact skipWs_nonws _ _ (by decide)
      simp only [List.append_assoc] at hstrip
      simp only [hstrip]
      have hi := parseJ_items xs x (f + 1) rest
      simp only [printItems, printJ, printStr, List.map, List.cons_append, List.nil_append,
        List.append_assoc, Nat.reduceMul] at hi
      rw [show f + 1 + xs.length + 2 = f + xs.length + 3 from by omega] at hi
      simp only [hi]
      simp

theorem skipWs_sp (l : List Char) : skipWs (' ' :: l) = skipWs l := by
  simp [skipWs, jsonWs]

theorem skipWs_printArr (hist : List String) (l : List Char) :
    skipWs (printJ 1 (.jarr (hist.map .jstr)) ++ l) =
      printJ 1 (.jarr (hist.map .jstr)) ++ l := by
  cases hist <;> simp [printJ, List.map, skipWs, jsonWs]

theorem skipWs_colon (l : List Char) : skipWs (':' :: l) = ':' :: l :=
  skipWs_nonws _ _ (by decide)

theorem skipWs_comma (l : List Char) : skipWs (',' :: l) = ',' :: l :=
  skipWs_nonws _ _ (by decide)

theorem skipWs_rbrace (l : List Char) : skipWs ('\x7d' :: l) = '\x7d' :: l :=
  skipWs_nonws _ _ (by decide)

/-- Parsing the printed `history` member (the last member of the record). -/
theorem parseJ_field_history (hist : List String) (f : Nat) (rest : List Char) :
    parseJ (f + hist.length + 4) .fields
      ('"' :: (escList "history".data ++ ('"' :: (':' :: (' ' :: (printJ 1 (.jarr (hist.map .jstr)) ++ ('\n' :: ('\x7d' :: rest)))))))) =
      some (.jobj [("history", .jarr (hist.map .jstr))], rest) := by
  rw [show f + hist.length + 4 = (f + hist.length + 3) + 1 from by omega]
  rw [parseJ.eq_def]
  simp only [parseStrBody_escList, bind, Option.bind, skipWs_colon, skipWs_sp,
    skipWs_printArr]
  have ha := parseJ_arr hist f ('\n' :: ('\x7d' :: rest))
  simp only [ha, skipWs_nl, skipWs_rbrace]

/-- Parsing the two printed members of the record object. -/
theorem parseJ_fields_record (nm : Option String) (hist : List String) (f : Nat)
    (rest : List Char) :
    parseJ (f + hist.length + 5) .fields
      ('"' :: (escList "name".data ++ ('"' :: (':' :: (' ' :: (printJ 1 (optJ nm) ++ (',' :: ('\n' :: (List.replicate 2 ' ' ++ ('"' :: (escList "history".data ++ ('"' :: (':' :: (' ' :: (printJ 1 (.jarr (hist.map .jstr)) ++ ('\n' :: ('\x7d' :: rest))))))))))))))))) = some (mkRecord nm hist, rest) := by
  rw [show f + hist.length + 5 = (f + hist.length + 4) + 1 from by omega]
  rw [parseJ.eq_def]
  simp only [parseStrBody_escList, bind, Option.bind, skipWs_colon, skipWs_sp,
    skipWs_printOptJ]
  have hv := parseJ_optJ nm (f + hist.length + 3)
    (',' :: ('\n' :: (List.replicate 2 ' ' ++ ('"' :: (escList "history".data ++ ('"' :: (':' :: (' ' :: (printJ 1 (.jarr (hist.map .jstr)) ++ ('\n' :: ('\x7d' :: rest)))))))))))
  rw [show f + hist.length + 3 + 1 = f + hist.length + 4 from by omega] at hv
  simp only [hv, skipWs_comma]
  have hstrip : skipWs ('\n' :: (List.replicate 2 ' ' ++ ('"' :: (escList "history".data ++ ('"' :: (':' :: (' ' :: (printJ 1 (.jarr (hist.map .jstr)) ++ ('\n' :: ('\x7d' :: rest)))))))))) =
      ('"' :: (escList "history".data ++ ('"' :: (':' :: (' ' :: (printJ 1 (.jarr (hist.map .jstr)) ++ ('\n' :: ('\x7d' :: rest)))))))) := by
    rw [skipWs_nl, skipWs_replicate]
    exact skipWs_nonws _ _ (by decide)
  simp only [hstrip]
  have hA := parseJ_field_history hist f rest
  simp only [hA]
  rfl

theorem skipWs_lbrace (l : List Char) : skipWs ('\x7b' :: l) = '\x7b' :: l :=
  skipWs_nonws _ _ (by decide)

theorem skipWs_nl_ind_quote (X : List Char) :
    skipWs ('\n' :: (List.replicate 2 ' ' ++ ('"' :: X))) = '"' :: X := by
  rw [skipWs_nl, skipWs_replicate]
  exact skipWs_nonws _ _ (by decide)

/-- Parsing the whole printed record in value position. -/
theorem parseJ_record (nm : Option String) (hist : List String) (f : Nat)
    (rest : List Char) :
    parseJ (f + hist.length + 7) .val (printJ 0 (mkRecord nm hist) ++ rest)
      = some (mkRecord nm hist, rest) := by
  rw [show f + hist.length + 7 = (f + hist.length + 6) + 1 from by omega]
  rw [parseJ.eq_def]
  simp only [mkRecord, printJ, printFields, printStr, List.map, Nat.reduceMul,
    List.replicate_zero, List.cons_append, List.nil_append, List.append_assoc,
    skipWs_lbrace, skipWs_nl_ind_quote]
  have hf := parseJ_fields_record nm hist (f + 1) rest
  rw [show f + 1 + hist.length + 5 = f + hist.length + 6 from by omega] at hf
  simp only [mkRecord] at hf
  exact hf

theorem printItems_len (xs : List String) :
    xs.length ≤ (printItems 2 (xs.map .jstr)).length := by
  induction xs with
  | nil => simp [printItems]
  | cons y ys ih =>
      simp only [List.map, printItems, printJ, printStr, List.length_cons,
        List.length_append, List.length_replicate] at ih ⊢
      omega

theorem printArr_len (hist : List String) :
    hist.length ≤ (printJ 1 (.jarr (hist.map .jstr))).length := by
  cases hist with
  | nil => simp [printJ, List.map]
  | cons x xs =>
      have h := printItems_len xs
      simp only [List.map, printJ, printStr, Nat.reduceMul, Nat.reduceAdd,
        List.length_cons, List.length_append, List.length_replicate] at h ⊢
      omega

theorem printRecord_len (nm : Option String) (hist : List String) :
    hist.length + 2 ≤ (printJ 0 (mkRecord nm hist)).length := by
  have h := printArr_len hist
  simp only [mkRecord, printJ, printFields, printStr, Nat.reduceMul, Nat.reduceAdd,
    List.replicate_zero, List.length_cons, List.length_append, List.length_replicate,
    List.length_nil, List.map] at h ⊢
  omega

/-- The serialized two-field record round-trips exactly through
`json.dump` / `json.load`. -/
theorem jsonParse_print_record (nm : Option String) (hist : List String) :
    jsonParse (jsonPrint (mkRecord nm hist)) = some (mkRecord nm hist) := by
  unfold jsonParse jsonPrint
  have hlen := printRecord_len nm hist
  obtain ⟨g, hg⟩ : ∃ g,
      2 * (String.mk (printJ 0 (mkRecord nm hist))).length + 4 = g + hist.length + 7 := by
    refine ⟨2 * (printJ 0 (mkRecord nm hist)).length + 4 - (hist.length + 7), ?_⟩
    show 2 * (printJ 0 (mkRecord nm hist)).length + 4 = _
    omega
  rw [hg]
  have hr := parseJ_record nm hist g []
  rw [List.append_nil] at hr
  show (match parseJ (g + hist.length + 7) .val (printJ 0 (mkRecord nm hist)) with
        | some (v, rest) => if skipWs rest = [] then some v else none
        | none => none) = some (mkRecord nm hist)
  rw [hr]
  simp [skipWs]

/-- C6: `save(path)` followed by `load(path)` restores an in-memory record
deep-equal to the one saved: the two-field `{name, history}` layout
round-trips exactly through the serialized file. -/
theorem C6_save_load_roundtrip (nm : Option String) (hist : List String) (path : String)
    (fs : String → Option String) (mem0 : JVal) :
    loadOp (saveOp (mkRecord nm hist) fs path).2 path mem0 =
      (.ok ("Loaded conversation from " ++ path), mkRecord nm hist) := by
  simp [saveOp, loadOp, jsonParse_print_record nm hist]
